import Mathlib

/-!
Shallow embedding of the timer subsystem in src/components/script/timers.rs
(Servo-style script timers): the one-shot timer queue (OneshotTimers) and the
timeout/interval registry (JsTimers), together with the observable events the
subsystem produces (scheduler requests and callback invocations).

Modelling conventions:
* Wall-clock reads (precise_time_ms) become an explicit `now : Nat` argument
  to every operation that reads the clock.
* Machine integers (i32 handles, u32 ids and nesting levels, u64 millisecond
  durations) are modelled as Nat, except the user-supplied timeout which is
  an Int as in the source (i32), clamped with max 0 exactly as the source
  does.  u64 saturating_sub becomes Nat truncated subtraction.
* Rust panics / failed asserts / unwraps are modelled by Option: a `none`
  result is a panic.
* The script-execution collaborator that runs a callback body is external to
  the source file; its possible re-entrant calls back into the subsystem are
  modelled by a small syntactic effect language (TimerEffect): a callback
  body is the list of timer operations it performs.  The queue never
  inspects this payload, mirroring the source.
* The IPC channel to the external scheduler is modelled by a log of issued
  requests; callback invocation is modelled by a log of invocation records.
-/

namespace ServoTimers

/-- Tag for the origin of a timer request (models TimerSource, opaque here). -/
abbrev TimerSource := Nat

/-- One re-entrant call a running script callback body can make back into the
timer subsystem (the registration API surface reachable from script). -/
inductive TimerEffect : Type where
  /-- set_timeout_or_interval with the given timeout, interval flag, body of
  the new callback, and source. -/
  | setTimeout (timeout : Int) (isInterval : Bool) (body : List TimerEffect)
      (source : TimerSource)
  /-- clear_timeout_or_interval on the given application handle. -/
  | clearTimer (handle : Nat)

/-- Models JsTimerTask: the payload of an application timer.  The source field
`callback : InternalTimerCallback` (a code string or function plus frozen
arguments, executed by the external script collaborator) is modelled by the
list of timer-subsystem effects its execution performs. -/
structure JsTimerTask where
  handle : Nat
  source : TimerSource
  callback : List TimerEffect
  is_interval : Bool
  nesting_level : Nat
  duration : Nat

/-- Models OneshotTimerCallback: a closed set of callback variants. -/
inductive OneshotTimerCallback : Type where
  | xhrTimeout : OneshotTimerCallback
  | jsTimer : JsTimerTask → OneshotTimerCallback

/-- Models OneshotTimer. -/
structure OneshotTimer where
  handle : Nat
  source : TimerSource
  callback : OneshotTimerCallback
  scheduled_for : Nat

instance : Inhabited OneshotTimer :=
  ⟨{ handle := 0, source := 0, callback := OneshotTimerCallback.xhrTimeout,
     scheduled_for := 0 }⟩

/-- Models TimerEventRequest (the message sent to the external scheduler):
the reply channel is implicit, the payload is {source, event id, delay}. -/
structure SchedulerRequest where
  source : TimerSource
  id : Nat
  delay : Nat

/-- Observation record for one invoked one-shot timer callback: the one-shot
handle, its deadline, and the application (JS) handle when the callback is a
JsTimer task. -/
structure InvokeRecord where
  handle : Nat
  scheduled_for : Nat
  jsHandle : Option Nat
deriving DecidableEq

/-- Joint state of OneshotTimers and its embedded JsTimers, plus the
observation logs (issued scheduler requests, performed invocations). -/
structure TimerState where
  next_timer_handle : Nat
  /-- The pending one-shot timers, sorted ascending in OneshotTimer's Ord
  (descending deadline): the earliest deadline is the last element. -/
  timers : List OneshotTimer
  suspended_since : Option Nat
  suspension_offset : Nat
  expected_event_id : Nat
  js_next_handle : Nat
  /-- Models JsTimers::active_timers (HashMap JsTimerHandle -> JsTimerEntry),
  as an association list with unique keys. -/
  active_timers : List (Nat × Nat)
  nesting_level : Nat
  scheduler_requests : List SchedulerRequest
  invoked : List InvokeRecord

/-- Models impl Ord for OneshotTimer: deadline comparison reversed, ties on
the handle, also reversed.  Ordering::reverse is Ordering.swap. -/
def OneshotTimer.cmp (a b : OneshotTimer) : Ordering :=
  match (compare a.scheduled_for b.scheduled_for).swap with
  | Ordering.eq => (compare a.handle b.handle).swap
  | r => r

/-- Models the standard-library slice binary_search used by
schedule_callback: classic lo/hi loop; the fuel argument makes the loop a
structural recursion and is always called with fuel = list length, which
bounds the iteration count. -/
def binarySearchGo (ts : List OneshotTimer) (t : OneshotTimer) :
    Nat → Nat → Nat → Except Nat Nat
  | 0, lo, _ => Except.error lo
  | fuel + 1, lo, hi =>
    if lo < hi then
      let mid := (lo + hi) / 2
      match OneshotTimer.cmp (ts.getD mid default) t with
      | Ordering.lt => binarySearchGo ts t fuel (mid + 1) hi
      | Ordering.gt => binarySearchGo ts t fuel lo mid
      | Ordering.eq => Except.ok mid
    else Except.error lo

/-- binary_search(&timer).err(): some index when the search misses (Err),
none when an equal element exists (Ok), in which case the source's
.err().unwrap() panics. -/
def insertionIndex (ts : List OneshotTimer) (t : OneshotTimer) : Option Nat :=
  match binarySearchGo ts t ts.length 0 ts.length with
  | Except.error i => some i
  | Except.ok _ => none

/-- Vec::insert at a position. -/
def insertAt (ts : List OneshotTimer) (i : Nat) (t : OneshotTimer) :
    List OneshotTimer :=
  ts.take i ++ t :: ts.drop i

/-- HashMap::get on the association list. -/
def getAssoc : List (Nat × Nat) → Nat → Option Nat
  | [], _ => none
  | (k, v) :: rest, h => if k = h then some v else getAssoc rest h

/-- HashMap::remove (keys are unique; removes the entry if present). -/
def removeAssoc : List (Nat × Nat) → Nat → List (Nat × Nat)
  | [], _ => []
  | (k, v) :: rest, h =>
    if k = h then rest else (k, v) :: removeAssoc rest h

/-- HashMap::entry(h).or_insert(e) followed by assignment: upsert. -/
def setAssoc : List (Nat × Nat) → Nat → Nat → List (Nat × Nat)
  | [], h, v => [(h, v)]
  | (k, w) :: rest, h, v =>
    if k = h then (h, v) :: rest else (k, w) :: setAssoc rest h v

/-- HashMap::contains_key. -/
def containsKey (m : List (Nat × Nat)) (h : Nat) : Bool :=
  (getAssoc m h).isSome

/-- Models OneshotTimers::base_time: logical time.  u64 subtraction is
truncated; in every reachable state the offset never exceeds the minuend. -/
def base_time (s : TimerState) (now : Nat) : Nat :=
  match s.suspended_since with
  | some time => time - s.suspension_offset
  | none => now - s.suspension_offset

/-- Models OneshotTimers::invalidate_expected_event_id: bump the generation
id and return the new value. -/
def invalidate_expected_event_id (s : TimerState) : Nat × TimerState :=
  let next_id := s.expected_event_id + 1
  (next_id, { s with expected_event_id := next_id })

/-- Models OneshotTimers::is_next_timer. -/
def is_next_timer (s : TimerState) (handle : Nat) : Bool :=
  match s.timers.getLast? with
  | none => false
  | some max_timer => max_timer.handle == handle

/-- Models OneshotTimers::schedule_timer_call: if not suspended and the queue
is non-empty, bump the generation id and issue one request to the external
scheduler carrying the fresh id and delay = saturating_sub of the earliest
deadline and wall-clock now. -/
def schedule_timer_call (s : TimerState) (now : Nat) : TimerState :=
  if s.suspended_since.isSome then s
  else
    match s.timers.getLast? with
    | some timer =>
      let p := invalidate_expected_event_id s
      let delay := timer.scheduled_for - now
      { p.2 with scheduler_requests :=
          p.2.scheduler_requests ++
            [{ source := timer.source, id := p.1, delay := delay }] }
    | none => s

/-- Models OneshotTimers::schedule_callback: allocate the next handle, set
the deadline to logical time + duration, insert at the position found by
binary search (none = the source's .err().unwrap() panic), and re-arm if the
new entry is the earliest. -/
def schedule_callback (s : TimerState) (now : Nat)
    (callback : OneshotTimerCallback) (duration : Nat) (source : TimerSource) :
    Option (Nat × TimerState) :=
  let new_handle := s.next_timer_handle
  let s0 := { s with next_timer_handle := new_handle + 1 }
  let scheduled_for := base_time s0 now + duration
  let timer : OneshotTimer :=
    { handle := new_handle, source := source, callback := callback,
      scheduled_for := scheduled_for }
  match insertionIndex s0.timers timer with
  | none => none
  | some i =>
    let s1 := { s0 with timers := insertAt s0.timers i timer }
    let s2 := if is_next_timer s1 new_handle then schedule_timer_call s1 now
              else s1
    some (new_handle, s2)

/-- Models OneshotTimers::unschedule_callback: remove the entry with this
handle; if it was the earliest, invalidate the generation id and re-arm. -/
def unschedule_callback (s : TimerState) (now : Nat) (handle : Nat) :
    TimerState :=
  let was_next := is_next_timer s handle
  let s1 := { s with timers := s.timers.filter (fun t => t.handle ≠ handle) }
  if was_next then
    schedule_timer_call (invalidate_expected_event_id s1).2 now
  else s1

/-- Models OneshotTimers::suspend: asserts not already suspended (none =
panic), records the suspension timestamp, invalidates the generation id. -/
def suspend (s : TimerState) (now : Nat) : Option TimerState :=
  match s.suspended_since with
  | some _ => none
  | none =>
    some (invalidate_expected_event_id { s with suspended_since := some now }).2

/-- Models OneshotTimers::resume: asserts suspended (none = panic), adds the
elapsed suspended duration to the offset, clears suspension, re-arms. -/
def resume (s : TimerState) (now : Nat) : Option TimerState :=
  match s.suspended_since with
  | none => none
  | some suspended_since =>
    let additional_offset := now - suspended_since
    let s1 := { s with
      suspension_offset := s.suspension_offset + additional_offset,
      suspended_since := none }
    some (schedule_timer_call s1 now)

/-- Models clamp_duration (step 7 of the timer initialisation steps). -/
def clamp_duration (nesting_level : Nat) (unclamped : Nat) : Nat :=
  let lower_bound := if nesting_level > 5 then 4 else 0
  max lower_bound unclamped

/-- Models JsTimers::initialize_and_schedule: read the current nesting depth,
clamp the task's duration for the delay, set the task's nesting level to
depth + 1, schedule the one-shot entry, and upsert the application handle's
mapping to the fresh one-shot handle. -/
def initializeAndSchedule (s : TimerState) (now : Nat) (task : JsTimerTask) :
    Option TimerState :=
  let handle := task.handle
  let nesting_level := s.nesting_level
  let duration := clamp_duration nesting_level task.duration
  let task1 := { task with nesting_level := nesting_level + 1 }
  match schedule_callback s now (OneshotTimerCallback.jsTimer task1) duration
      task1.source with
  | none => none
  | some (oneshot_handle, s1) =>
    some { s1 with
      active_timers := setAssoc s1.active_timers handle oneshot_handle }

/-- Models JsTimers::set_timeout_or_interval: allocate the next application
handle, clamp the timeout to a non-negative duration, build the task with
nesting level 0 and delegate to initialize_and_schedule; returns the new
application handle. -/
def set_timeout_or_interval (s : TimerState) (now : Nat)
    (callback : List TimerEffect) (timeout : Int) (is_interval : Bool)
    (source : TimerSource) : Option (Nat × TimerState) :=
  let new_handle := s.js_next_handle
  let s0 := { s with js_next_handle := new_handle + 1 }
  let task : JsTimerTask :=
    { handle := new_handle, source := source, callback := callback,
      is_interval := is_interval, nesting_level := 0,
      duration := (max 0 timeout).toNat }
  match initializeAndSchedule s0 now task with
  | none => none
  | some s1 => some (new_handle, s1)

/-- Models JsTimers::clear_timeout_or_interval: remove the application
handle's mapping if present and unschedule the underlying one-shot entry;
no-op if absent. -/
def clear_timeout_or_interval (s : TimerState) (now : Nat) (handle : Nat) :
    TimerState :=
  match getAssoc s.active_timers handle with
  | none => s
  | some oneshot_handle =>
    unschedule_callback
      { s with active_timers := removeAssoc s.active_timers handle }
      now oneshot_handle

/-- Execute one re-entrant effect of a running callback body. -/
def runEffect (s : TimerState) (now : Nat) : TimerEffect → Option TimerState
  | TimerEffect.setTimeout timeout isInterval body source =>
    match set_timeout_or_interval s now body timeout isInterval source with
    | none => none
    | some p => some p.2
  | TimerEffect.clearTimer handle =>
    some (clear_timeout_or_interval s now handle)

/-- Execute a callback body: its effects in order. -/
def runEffects (now : Nat) : TimerState → List TimerEffect → Option TimerState
  | s, [] => some s
  | s, e :: es =>
    match runEffect s now e with
    | none => none
    | some s1 => runEffects now s1 es

/-- Models JsTimerTask::invoke: set the registry's nesting depth to the
task's level, run the callback body via the collaborator, reset the depth to
0, then re-arm a fresh task iff the task is a repeating interval and the
application handle's mapping still exists. -/
def JsTimerTask.invoke (task : JsTimerTask) (s : TimerState) (now : Nat) :
    Option TimerState :=
  let s0 := { s with nesting_level := task.nesting_level }
  match runEffects now s0 task.callback with
  | none => none
  | some s1 =>
    let s2 := { s1 with nesting_level := 0 }
    if task.is_interval ∧ containsKey s2.active_timers task.handle then
      initializeAndSchedule s2 now task
    else
      some s2

/-- Models OneshotTimerCallback::invoke: dispatch on the variant.  The
XhrTimeout variant only signals the external XHR object, with no effect on
the timer state. -/
def OneshotTimerCallback.invokeCb :
    OneshotTimerCallback → TimerState → Nat → Option TimerState
  | OneshotTimerCallback.xhrTimeout, s, _ => some s
  | OneshotTimerCallback.jsTimer task, s, now => task.invoke s now

/-- Observation record for invoking the given one-shot timer. -/
def mkRecord (t : OneshotTimer) : InvokeRecord :=
  { handle := t.handle, scheduled_for := t.scheduled_for,
    jsHandle :=
      match t.callback with
      | OneshotTimerCallback.xhrTimeout => none
      | OneshotTimerCallback.jsTimer task => some task.handle }

/-- The collection loop of fire_timer: pop entries from the end of the vector
(earliest deadline first) while due, accumulating them in pop order.  Fuel is
the list length, bounding the iteration count. -/
def popDue (bt : Nat) :
    Nat → List OneshotTimer → List OneshotTimer →
    List OneshotTimer × List OneshotTimer
  | 0, ts, acc => (ts, acc)
  | fuel + 1, ts, acc =>
    match ts.getLast? with
    | none => (ts, acc)
    | some t =>
      if t.scheduled_for > bt then (ts, acc)
      else popDue bt fuel ts.dropLast (acc ++ [t])

/-- The invocation loop of fire_timer: invoke each collected timer's callback
in order, recording the invocation. -/
def runTimersToRun (now : Nat) :
    TimerState → List OneshotTimer → Option TimerState
  | s, [] => some s
  | s, t :: rest =>
    match OneshotTimerCallback.invokeCb t.callback
        { s with invoked := s.invoked ++ [mkRecord t] } now with
    | none => none
    | some s1 => runTimersToRun now s1 rest

/-- Models OneshotTimers::fire_timer: a notification whose id differs from
the expected generation id is ignored (state returned unchanged); otherwise
assert not suspended and at least one due timer (none = panic), collect and
remove all due timers in one pass, invoke them in order, and re-arm. -/
def fire_timer (s : TimerState) (now : Nat) (id : Nat) : Option TimerState :=
  if s.expected_event_id ≠ id then some s
  else if s.suspended_since.isSome then none
  else
    let bt := base_time s now
    match s.timers.getLast? with
    | none => none
    | some last_timer =>
      if bt < last_timer.scheduled_for then none
      else
        let p := popDue bt s.timers.length s.timers []
        match runTimersToRun now { s with timers := p.1 } p.2 with
        | none => none
        | some s2 => some (schedule_timer_call s2 now)

/-- Models OneshotTimers::new / JsTimers::new: the initial state. -/
def initialState : TimerState :=
  { next_timer_handle := 1, timers := [], suspended_since := none,
    suspension_offset := 0, expected_event_id := 0, js_next_handle := 1,
    active_timers := [], nesting_level := 0, scheduler_requests := [],
    invoked := [] }

/-- The states reachable from the initial state by any sequence of public
operations, with arbitrary wall-clock readings. -/
inductive Reachable : TimerState → Prop where
  | init : Reachable initialState
  | schedule {s now cb d src h s'} : Reachable s →
      schedule_callback s now cb d src = some (h, s') → Reachable s'
  | unschedule {s now h} : Reachable s →
      Reachable (unschedule_callback s now h)
  | fire {s now id s'} : Reachable s →
      fire_timer s now id = some s' → Reachable s'
  | suspendStep {s now s'} : Reachable s →
      suspend s now = some s' → Reachable s'
  | resumeStep {s now s'} : Reachable s →
      resume s now = some s' → Reachable s'
  | setTimeout {s now body timeout isI src h s'} : Reachable s →
      set_timeout_or_interval s now body timeout isI src = some (h, s') →
      Reachable s'
  | clearTimer {s now h} : Reachable s →
      Reachable (clear_timeout_or_interval s now h)

/-- Strict key order on one-shot timers: earlier deadline first, ties by
handle (registration order). -/
def keyLt (a b : OneshotTimer) : Prop :=
  a.scheduled_for < b.scheduled_for ∨
    (a.scheduled_for = b.scheduled_for ∧ a.handle < b.handle)

/-- The timer vector's ordering invariant: sorted ascending in
OneshotTimer's Ord, i.e. strictly descending in (deadline, handle). -/
def SortedT (ts : List OneshotTimer) : Prop :=
  ts.Pairwise (fun a b => OneshotTimer.cmp a b = Ordering.lt)

/-- An entry is due at logical time bt when its deadline has elapsed. -/
def isDue (bt : Nat) (t : OneshotTimer) : Bool :=
  t.scheduled_for ≤ bt

/-- The master state invariant: the timer vector is sorted, handles are
bounded by the allocation counter and pairwise distinct, and issued
scheduler-request ids are bounded by the expected id and strictly
increasing. -/
structure Inv (s : TimerState) : Prop where
  sorted : SortedT s.timers
  bounded : ∀ t ∈ s.timers, t.handle < s.next_timer_handle
  handlesNe : s.timers.Pairwise (fun a b => a.handle ≠ b.handle)
  reqLe : ∀ r ∈ s.scheduler_requests, r.id ≤ s.expected_event_id
  reqMono : (s.scheduler_requests.map SchedulerRequest.id).Pairwise
    (fun a b => a < b)

/-! ### Order lemmas for OneshotTimer's Ord -/

theorem keyLt_trans {a b c : OneshotTimer} (h1 : keyLt a b) (h2 : keyLt b c) :
    keyLt a c := by
  unfold keyLt at *
  omega

theorem cmp_eq_lt {a b : OneshotTimer} :
    OneshotTimer.cmp a b = Ordering.lt ↔ keyLt b a := by
  unfold OneshotTimer.cmp keyLt
  rcases Nat.lt_trichotomy a.scheduled_for b.scheduled_for with h | h | h
  · rw [Nat.compare_eq_lt.mpr h]
    simp only [Ordering.swap]
    constructor
    · intro hc
      exact absurd hc (by simp)
    · intro hk
      omega
  · rw [Nat.compare_eq_eq.mpr h]
    simp only [Ordering.swap]
    rcases Nat.lt_trichotomy a.handle b.handle with h2 | h2 | h2
    · rw [Nat.compare_eq_lt.mpr h2]
      simp only [Ordering.swap]
      constructor
      · intro hc
        exact absurd hc (by simp)
      · intro hk
        omega
    · rw [Nat.compare_eq_eq.mpr h2]
      simp only [Ordering.swap]
      constructor
      · intro hc
        exact absurd hc (by simp)
      · intro hk
        omega
    · rw [Nat.compare_eq_gt.mpr h2]
      simp only [Ordering.swap]
      constructor
      · intro _
        omega
      · intro _
        trivial
  · rw [Nat.compare_eq_gt.mpr h]
    simp only [Ordering.swap]
    constructor
    · intro _
      omega
    · intro _
      trivial

theorem cmp_eq_gt {a b : OneshotTimer} :
    OneshotTimer.cmp a b = Ordering.gt ↔ keyLt a b := by
  unfold OneshotTimer.cmp keyLt
  rcases Nat.lt_trichotomy a.scheduled_for b.scheduled_for with h | h | h
  · rw [Nat.compare_eq_lt.mpr h]
    simp only [Ordering.swap]
    constructor
    · intro _
      omega
    · intro _
      trivial
  · rw [Nat.compare_eq_eq.mpr h]
    simp only [Ordering.swap]
    rcases Nat.lt_trichotomy a.handle b.handle with h2 | h2 | h2
    · rw [Nat.compare_eq_lt.mpr h2]
      simp only [Ordering.swap]
      constructor
      · intro _
        omega
      · intro _
        trivial
    · rw [Nat.compare_eq_eq.mpr h2]
      simp only [Ordering.swap]
      constructor
      · intro hc
        exact absurd hc (by simp)
      · intro hk
        omega
    · rw [Nat.compare_eq_gt.mpr h2]
      simp only [Ordering.swap]
      constructor
      · intro hc
        exact absurd hc (by simp)
      · intro hk
        omega
  · rw [Nat.compare_eq_gt.mpr h]
    simp only [Ordering.swap]
    constructor
    · intro hc
      exact absurd hc (by simp)
    · intro hk
      omega

theorem cmp_eq_eq {a b : OneshotTimer} :
    OneshotTimer.cmp a b = Ordering.eq ↔
      (a.scheduled_for = b.scheduled_for ∧ a.handle = b.handle) := by
  unfold OneshotTimer.cmp
  rcases Nat.lt_trichotomy a.scheduled_for b.scheduled_for with h | h | h
  · rw [Nat.compare_eq_lt.mpr h]
    simp only [Ordering.swap]
    constructor
    · intro hc
      exact absurd hc (by simp)
    · intro hk
      omega
  · rw [Nat.compare_eq_eq.mpr h]
    simp only [Ordering.swap]
    rcases Nat.lt_trichotomy a.handle b.handle with h2 | h2 | h2
    · rw [Nat.compare_eq_lt.mpr h2]
      simp only [Ordering.swap]
      constructor
      · intro hc
        exact absurd hc (by simp)
      · intro hk
        omega
    · rw [Nat.compare_eq_eq.mpr h2]
      simp only [Ordering.swap]
      exact ⟨fun _ => ⟨h, h2⟩, fun _ => trivial⟩
    · rw [Nat.compare_eq_gt.mpr h2]
      simp only [Ordering.swap]
      constructor
      · intro hc
        exact absurd hc (by simp)
      · intro hk
        omega
  · rw [Nat.compare_eq_gt.mpr h]
    simp only [Ordering.swap]
    constructor
    · intro hc
      exact absurd hc (by simp)
    · intro hk
      omega

theorem sorted_get_lt {ts : List OneshotTimer} (hs : SortedT ts) {i j : Nat}
    (hij : i < j) (hj : j < ts.length) :
    OneshotTimer.cmp (ts.get ⟨i, lt_trans hij hj⟩) (ts.get ⟨j, hj⟩) =
      Ordering.lt :=
  List.pairwise_iff_get.mp hs ⟨i, lt_trans hij hj⟩ ⟨j, hj⟩ hij

/-! ### Binary search correctness -/

theorem bsGo_spec (ts : List OneshotTimer) (t : OneshotTimer)
    (hs : SortedT ts)
    (hne : ∀ x ∈ ts, OneshotTimer.cmp x t ≠ Ordering.eq) :
    ∀ fuel lo hi, hi - lo ≤ fuel → lo ≤ hi → hi ≤ ts.length →
    (∀ j (hj : j < ts.length), j < lo →
      OneshotTimer.cmp (ts.get ⟨j, hj⟩) t = Ordering.lt) →
    (∀ j (hj : j < ts.length), hi ≤ j →
      OneshotTimer.cmp (ts.get ⟨j, hj⟩) t = Ordering.gt) →
    ∃ i, binarySearchGo ts t fuel lo hi = Except.error i ∧ i ≤ ts.length ∧
      (∀ j (hj : j < ts.length), j < i →
        OneshotTimer.cmp (ts.get ⟨j, hj⟩) t = Ordering.lt) ∧
      (∀ j (hj : j < ts.length), i ≤ j →
        OneshotTimer.cmp (ts.get ⟨j, hj⟩) t = Ordering.gt) := by
  intro fuel
  induction fuel with
  | zero =>
    intro lo hi hfuel hlohi hhi hlo hhi2
    refine ⟨lo, rfl, by omega, hlo, ?_⟩
    intro j hj hij
    exact hhi2 j hj (by omega)
  | succ fuel ih =>
    intro lo hi hfuel hlohi hhi hlo hhi2
    by_cases hlt : lo < hi
    · have hmidlt : (lo + hi) / 2 < hi := by omega
      have hmidge : lo ≤ (lo + hi) / 2 := by omega
      have hmidlen : (lo + hi) / 2 < ts.length := lt_of_lt_of_le hmidlt hhi
      have hget : ts.getD ((lo + hi) / 2) default = ts.get ⟨(lo + hi) / 2, hmidlen⟩ := by
        rw [List.getD_eq_getElem?_getD, List.getElem?_eq_getElem hmidlen]
        rfl
      have hmem : ts.get ⟨(lo + hi) / 2, hmidlen⟩ ∈ ts := List.get_mem ts ((lo + hi) / 2) hmidlen
      have hstep : binarySearchGo ts t (fuel + 1) lo hi =
          match OneshotTimer.cmp (ts.get ⟨(lo + hi) / 2, hmidlen⟩) t with
          | Ordering.lt => binarySearchGo ts t fuel ((lo + hi) / 2 + 1) hi
          | Ordering.gt => binarySearchGo ts t fuel lo ((lo + hi) / 2)
          | Ordering.eq => Except.ok ((lo + hi) / 2) := by
        rw [binarySearchGo]
        simp only [if_pos hlt, hget]
      cases hcmp : OneshotTimer.cmp (ts.get ⟨(lo + hi) / 2, hmidlen⟩) t with
      | eq => exact absurd hcmp (hne _ hmem)
      | lt =>
        have hlo2 : ∀ j (hj : j < ts.length), j < (lo + hi) / 2 + 1 →
            OneshotTimer.cmp (ts.get ⟨j, hj⟩) t = Ordering.lt := by
          intro j hj hjm
          by_cases hjlo : j < lo
          · exact hlo j hj hjlo
          · by_cases hjmid : j < (lo + hi) / 2
            · have hj2 := sorted_get_lt hs hjmid hmidlen
              rw [cmp_eq_lt] at hj2 ⊢
              rw [cmp_eq_lt] at hcmp
              exact keyLt_trans hcmp hj2
            · have : j = (lo + hi) / 2 := by omega
              subst this
              exact hcmp
        obtain ⟨i, heq, hile, h1, h2⟩ :=
          ih ((lo + hi) / 2 + 1) hi (by omega) (by omega) hhi hlo2 hhi2
        refine ⟨i, ?_, hile, h1, h2⟩
        rw [hstep, hcmp]
        exact heq
      | gt =>
        have hhi3 : ∀ j (hj : j < ts.length), (lo + hi) / 2 ≤ j →
            OneshotTimer.cmp (ts.get ⟨j, hj⟩) t = Ordering.gt := by
          intro j hj hjm
          by_cases hjmid : (lo + hi) / 2 < j
          · have hj2 := sorted_get_lt hs hjmid hj
            rw [cmp_eq_lt] at hj2
            rw [cmp_eq_gt] at hcmp ⊢
            exact keyLt_trans hj2 hcmp
          · have : j = (lo + hi) / 2 := by omega
            subst this
            exact hcmp
        obtain ⟨i, heq, hile, h1, h2⟩ :=
          ih lo ((lo + hi) / 2) (by omega) (by omega) (le_of_lt hmidlen) hlo
            hhi3
        refine ⟨i, ?_, hile, h1, h2⟩
        rw [hstep, hcmp]
        exact heq
    · have hstep : binarySearchGo ts t (fuel + 1) lo hi = Except.error lo := by
        rw [binarySearchGo]
        simp only [if_neg hlt]
      refine ⟨lo, hstep, by omega, hlo, ?_⟩
      intro j hj hij
      exact hhi2 j hj (by omega)

theorem insertionIndex_spec (ts : List OneshotTimer) (t : OneshotTimer)
    (hs : SortedT ts)
    (hne : ∀ x ∈ ts, OneshotTimer.cmp x t ≠ Ordering.eq) :
    ∃ i, insertionIndex ts t = some i ∧ i ≤ ts.length ∧
      (∀ j (hj : j < ts.length), j < i →
        OneshotTimer.cmp (ts.get ⟨j, hj⟩) t = Ordering.lt) ∧
      (∀ j (hj : j < ts.length), i ≤ j →
        OneshotTimer.cmp (ts.get ⟨j, hj⟩) t = Ordering.gt) := by
  obtain ⟨i, heq, hile, h1, h2⟩ :=
    bsGo_spec ts t hs hne ts.length 0 ts.length (by omega) (by omega) le_rfl
      (by intro j hj hij; omega)
      (by intro j hj hij; omega)
  refine ⟨i, ?_, hile, h1, h2⟩
  unfold insertionIndex
  rw [heq]

/-! ### Insertion preserves pairwise invariants -/

theorem insertAt_pairwise {R : OneshotTimer → OneshotTimer → Prop}
    {ts : List OneshotTimer} {t : OneshotTimer} {i : Nat}
    (hp : ts.Pairwise R) (hi : i ≤ ts.length)
    (hlt : ∀ j (hj : j < ts.length), j < i → R (ts.get ⟨j, hj⟩) t)
    (hgt : ∀ j (hj : j < ts.length), i ≤ j → R t (ts.get ⟨j, hj⟩)) :
    (insertAt ts i t).Pairwise R := by
  unfold insertAt
  rw [List.pairwise_append]
  have htl : (ts.take i).length = i := by
    rw [List.length_take]
    omega
  refine ⟨hp.sublist (List.take_sublist i ts), ?_, ?_⟩
  · rw [List.pairwise_cons]
    constructor
    · intro b hb
      obtain ⟨n, hget⟩ := List.mem_iff_get.mp hb
      have hdl : (ts.drop i).length = ts.length - i := List.length_drop i ts
      have hn : (n : Nat) < (ts.drop i).length := n.isLt
      have hbn : b = ts.get ⟨i + n, by omega⟩ := by
        rw [← hget]
        simp only [List.get_eq_getElem, List.getElem_drop]
      rw [hbn]
      exact hgt (i + n) (by omega) (by omega)
    · exact hp.sublist (List.drop_sublist i ts)
  · intro a ha b hb
    rcases List.mem_cons.mp hb with hbt | hbd
    · subst hbt
      obtain ⟨n, hget⟩ := List.mem_iff_get.mp ha
      have hn : (n : Nat) < (ts.take i).length := n.isLt
      have han : a = ts.get ⟨n, by omega⟩ := by
        rw [← hget]
        simp only [List.get_eq_getElem, List.getElem_take]
      rw [han]
      exact hlt n (by omega) (by omega)
    · obtain ⟨n, hgeta⟩ := List.mem_iff_get.mp ha
      obtain ⟨m, hgetb⟩ := List.mem_iff_get.mp hbd
      have hn : (n : Nat) < (ts.take i).length := n.isLt
      have hm : (m : Nat) < (ts.drop i).length := m.isLt
      have hdl : (ts.drop i).length = ts.length - i := List.length_drop i ts
      have han : a = ts.get ⟨n, by omega⟩ := by
        rw [← hgeta]
        simp only [List.get_eq_getElem, List.getElem_take]
      have hbn : b = ts.get ⟨i + m, by omega⟩ := by
        rw [← hgetb]
        simp only [List.get_eq_getElem, List.getElem_drop]
      rw [han, hbn]
      exact List.pairwise_iff_get.mp hp ⟨n, by omega⟩ ⟨i + m, by omega⟩
        (Fin.mk_lt_mk.mpr (by omega))

theorem mem_insertAt {ts : List OneshotTimer} {t x : OneshotTimer} {i : Nat}
    (hx : x ∈ insertAt ts i t) : x = t ∨ x ∈ ts := by
  unfold insertAt at hx
  rcases List.mem_append.mp hx with h | h
  · exact Or.inr ((List.take_sublist i ts).mem h)
  · rcases List.mem_cons.mp h with h | h
    · exact Or.inl h
    · exact Or.inr ((List.drop_sublist i ts).mem h)

theorem self_mem_insertAt (ts : List OneshotTimer) (t : OneshotTimer)
    (i : Nat) : t ∈ insertAt ts i t := by
  unfold insertAt
  exact List.mem_append.mpr (Or.inr (List.mem_cons_self t _))

/-! ### The collection loop of fire_timer -/

theorem popDue_nil (bt fuel : Nat) (acc : List OneshotTimer) :
    popDue bt fuel [] acc = ([], acc) := by
  cases fuel <;> rfl

theorem popDue_concat (bt fuel : Nat) (ts : List OneshotTimer)
    (t : OneshotTimer) (acc : List OneshotTimer) :
    popDue bt (fuel + 1) (ts ++ [t]) acc =
      if t.scheduled_for > bt then (ts ++ [t], acc)
      else popDue bt fuel ts (acc ++ [t]) := by
  rw [popDue]
  simp only [List.getLast?_concat, List.dropLast_concat]

/-- On a deadline-descending list, the collection loop removes exactly the
due entries (a suffix) and accumulates them in pop order, i.e. the reverse
of their order in the vector. -/
theorem popDue_eq_filter (bt : Nat) (ts : List OneshotTimer) :
    ∀ (acc : List OneshotTimer) (fuel : Nat), ts.length ≤ fuel →
    ts.Pairwise (fun a b => b.scheduled_for ≤ a.scheduled_for) →
    popDue bt fuel ts acc =
      (ts.filter (fun x => ! isDue bt x),
       acc ++ (ts.filter (fun x => isDue bt x)).reverse) := by
  induction ts using List.reverseRecOn with
  | nil =>
    intro acc fuel _ _
    rw [popDue_nil]
    simp
  | append_singleton ts t ih =>
    intro acc fuel hf hp
    cases fuel with
    | zero =>
      simp at hf
    | succ k =>
      rw [popDue_concat]
      have hcross : ∀ a ∈ ts, t.scheduled_for ≤ a.scheduled_for := by
        have hsplit := List.pairwise_append.mp hp
        intro a ha
        exact hsplit.2.2 a ha t (List.mem_singleton.mpr rfl)
      by_cases hdue : t.scheduled_for > bt
      · rw [if_pos hdue]
        have h1 : (ts ++ [t]).filter (fun x => ! isDue bt x) = ts ++ [t] := by
          rw [List.filter_eq_self]
          intro a ha
          rcases List.mem_append.mp ha with h | h
          · have := hcross a h
            simp only [isDue, Bool.not_eq_true', decide_eq_false_iff_not]
            omega
          · rw [List.mem_singleton.mp h]
            simp only [isDue, Bool.not_eq_true', decide_eq_false_iff_not]
            omega
        have h2 : (ts ++ [t]).filter (fun x => isDue bt x) = [] := by
          rw [List.filter_eq_nil_iff]
          intro a ha
          rcases List.mem_append.mp ha with h | h
          · have := hcross a h
            simp only [isDue, decide_eq_true_eq]
            omega
          · rw [List.mem_singleton.mp h]
            simp only [isDue, decide_eq_true_eq]
            omega
        rw [h1, h2]
        simp
      · rw [if_neg hdue]
        have hlen : ts.length ≤ k := by
          rw [List.length_append] at hf
          simp at hf
          omega
        have hpair : ts.Pairwise (fun a b => b.scheduled_for ≤ a.scheduled_for) :=
          hp.sublist (List.sublist_append_left ts [t])
        rw [ih (acc ++ [t]) k hlen hpair]
        have htdue : isDue bt t = true := by
          simp only [isDue, decide_eq_true_eq]
          omega
        rw [List.filter_append, List.filter_append]
        simp [htdue, List.append_assoc]

theorem popDue_fst_sublist (bt : Nat) :
    ∀ (fuel : Nat) (ts acc : List OneshotTimer),
    (popDue bt fuel ts acc).1.Sublist ts := by
  intro fuel
  induction fuel with
  | zero =>
    intro ts acc
    exact List.Sublist.refl ts
  | succ k ih =>
    intro ts acc
    rw [popDue]
    cases hl : ts.getLast? with
    | none => exact List.Sublist.refl ts
    | some t =>
      dsimp only
      by_cases hdue : t.scheduled_for > bt
      · rw [if_pos hdue]
      · rw [if_neg hdue]
        exact (ih ts.dropLast (acc ++ [t])).trans (List.dropLast_sublist ts)

theorem popDue_snd_mem (bt : Nat) :
    ∀ (fuel : Nat) (ts acc : List OneshotTimer),
    ∀ x ∈ (popDue bt fuel ts acc).2,
      x ∈ acc ∨ (x ∈ ts ∧ isDue bt x = true) := by
  intro fuel
  induction fuel with
  | zero =>
    intro ts acc x hx
    exact Or.inl hx
  | succ k ih =>
    intro ts acc x hx
    rw [popDue] at hx
    cases hl : ts.getLast? with
    | none =>
      rw [hl] at hx
      exact Or.inl hx
    | some t =>
      rw [hl] at hx
      dsimp only at hx
      by_cases hdue : t.scheduled_for > bt
      · rw [if_pos hdue] at hx
        exact Or.inl hx
      · rw [if_neg hdue] at hx
        rcases ih ts.dropLast (acc ++ [t]) x hx with h | h
        · rcases List.mem_append.mp h with h2 | h2
          · exact Or.inl h2
          · rw [List.mem_singleton.mp h2]
            refine Or.inr ⟨List.mem_of_mem_getLast? hl, ?_⟩
            simp only [isDue, decide_eq_true_eq]
            omega
        · exact Or.inr ⟨(List.dropLast_sublist ts).mem h.1, h.2⟩

/-! ### Per-operation characterisations and invariant preservation -/

theorem schedule_timer_call_unchanged (s : TimerState) (now : Nat) :
    (schedule_timer_call s now).timers = s.timers ∧
    (schedule_timer_call s now).invoked = s.invoked ∧
    (schedule_timer_call s now).suspended_since = s.suspended_since ∧
    (schedule_timer_call s now).suspension_offset = s.suspension_offset ∧
    (schedule_timer_call s now).next_timer_handle = s.next_timer_handle ∧
    (schedule_timer_call s now).js_next_handle = s.js_next_handle ∧
    (schedule_timer_call s now).active_timers = s.active_timers ∧
    (schedule_timer_call s now).nesting_level = s.nesting_level ∧
    s.expected_event_id ≤ (schedule_timer_call s now).expected_event_id := by
  unfold schedule_timer_call invalidate_expected_event_id
  split
  · exact ⟨rfl, rfl, rfl, rfl, rfl, rfl, rfl, rfl, le_rfl⟩
  · split
    · exact ⟨rfl, rfl, rfl, rfl, rfl, rfl, rfl, rfl, Nat.le_succ _⟩
    · exact ⟨rfl, rfl, rfl, rfl, rfl, rfl, rfl, rfl, le_rfl⟩

/-- The issued-request characterisation of schedule_timer_call: when not
suspended and the queue is non-empty, the generation id is bumped and the
request carries the fresh id and the earliest entry's source and delay. -/
theorem schedule_timer_call_issue (s : TimerState) (now : Nat)
    (tm : OneshotTimer)
    (hsusp : s.suspended_since = none) (hlast : s.timers.getLast? = some tm) :
    schedule_timer_call s now =
      { s with expected_event_id := s.expected_event_id + 1,
               scheduler_requests := s.scheduler_requests ++
                 [({ source := tm.source, id := s.expected_event_id + 1,
                     delay := tm.scheduled_for - now } : SchedulerRequest)] } := by
  unfold schedule_timer_call invalidate_expected_event_id
  rw [hsusp]
  simp only [Option.isSome_none, Bool.false_eq_true, if_false, hlast]

theorem schedule_timer_call_empty (s : TimerState) (now : Nat)
    (hlast : s.timers.getLast? = none) :
    schedule_timer_call s now = s := by
  unfold schedule_timer_call
  split
  · rfl
  · rw [hlast]

theorem schedule_timer_call_suspended (s : TimerState) (now : Nat)
    (hsusp : s.suspended_since.isSome = true) :
    schedule_timer_call s now = s := by
  unfold schedule_timer_call
  rw [if_pos hsusp]

theorem schedule_timer_call_inv {s : TimerState} {now : Nat} (h : Inv s) :
    Inv (schedule_timer_call s now) := by
  cases hsusp : s.suspended_since with
  | some t0 =>
    rw [schedule_timer_call_suspended s now (by rw [hsusp]; rfl)]
    exact h
  | none =>
    cases hlast : s.timers.getLast? with
    | none =>
      rw [schedule_timer_call_empty s now hlast]
      exact h
    | some tm =>
      rw [schedule_timer_call_issue s now tm hsusp hlast]
      refine ⟨h.sorted, h.bounded, h.handlesNe, ?_, ?_⟩
      · intro r hr
        rcases List.mem_append.mp hr with h2 | h2
        · exact le_trans (h.reqLe r h2) (Nat.le_succ _)
        · rw [List.mem_singleton.mp h2]
      · rw [List.map_append, List.pairwise_append]
        refine ⟨h.reqMono, List.pairwise_singleton _ _, ?_⟩
        intro a ha b hb
        simp only [List.map_cons, List.map_nil, List.mem_singleton] at hb
        rcases List.mem_map.mp ha with ⟨r, hr, rfl⟩
        rw [hb]
        exact lt_of_le_of_lt (h.reqLe r hr) (Nat.lt_succ_self _)

/-- The entry that schedule_callback constructs and inserts. -/
def newTimer (s : TimerState) (now : Nat) (cb : OneshotTimerCallback)
    (d : Nat) (src : TimerSource) : OneshotTimer :=
  { handle := s.next_timer_handle, source := src, callback := cb,
    scheduled_for := base_time s now + d }

/-- Full characterisation of schedule_callback on a state satisfying the
invariant: it always succeeds, returns the allocated handle, preserves the
invariant, inserts exactly one new entry with deadline = logical time +
duration, and leaves everything except the timer vector, the allocation
counter and the re-arm machinery unchanged. -/
theorem schedule_callback_spec (s : TimerState) (now : Nat)
    (cb : OneshotTimerCallback) (d : Nat) (src : TimerSource) (h : Inv s) :
    ∃ s', schedule_callback s now cb d src = some (s.next_timer_handle, s') ∧
      Inv s' ∧
      s'.next_timer_handle = s.next_timer_handle + 1 ∧
      s'.invoked = s.invoked ∧
      s'.suspended_since = s.suspended_since ∧
      s'.suspension_offset = s.suspension_offset ∧
      s'.js_next_handle = s.js_next_handle ∧
      s'.active_timers = s.active_timers ∧
      s'.nesting_level = s.nesting_level ∧
      s.expected_event_id ≤ s'.expected_event_id ∧
      newTimer s now cb d src ∈ s'.timers ∧
      (∀ x ∈ s'.timers, x = newTimer s now cb d src ∨ x ∈ s.timers) := by
  have hne : ∀ x ∈ s.timers,
      OneshotTimer.cmp x (newTimer s now cb d src) ≠ Ordering.eq := by
    intro x hx hc
    have h2 : x.handle = s.next_timer_handle := (cmp_eq_eq.mp hc).2
    have h3 := h.bounded x hx
    omega
  obtain ⟨i, hidx, hile, hlt, hgt⟩ :=
    insertionIndex_spec s.timers (newTimer s now cb d src) h.sorted hne
  have hsorted2 : SortedT (insertAt s.timers i (newTimer s now cb d src)) := by
    refine insertAt_pairwise h.sorted hile hlt ?_
    intro j hj hij
    rw [cmp_eq_lt]
    exact cmp_eq_gt.mp (hgt j hj hij)
  have hne2 : (insertAt s.timers i (newTimer s now cb d src)).Pairwise
      (fun a b => a.handle ≠ b.handle) := by
    refine insertAt_pairwise h.handlesNe hile ?_ ?_
    · intro j hj hij
      have := h.bounded _ (List.get_mem s.timers j hj)
      show (s.timers.get ⟨j, hj⟩).handle ≠ (newTimer s now cb d src).handle
      simp only [newTimer]
      omega
    · intro j hj hij
      have := h.bounded _ (List.get_mem s.timers j hj)
      show (newTimer s now cb d src).handle ≠ (s.timers.get ⟨j, hj⟩).handle
      simp only [newTimer]
      omega
  have hbound2 : ∀ x ∈ insertAt s.timers i (newTimer s now cb d src),
      x.handle < s.next_timer_handle + 1 := by
    intro x hx
    rcases mem_insertAt hx with h2 | h2
    · rw [h2]
      exact Nat.lt_succ_self _
    · exact lt_trans (h.bounded x h2) (Nat.lt_succ_self _)
  unfold schedule_callback
  dsimp only
  have hbt : base_time { s with next_timer_handle := s.next_timer_handle + 1 }
      now = base_time s now := rfl
  rw [hbt]
  have hnt : ({ handle := s.next_timer_handle, source := src,
                callback := cb,
                scheduled_for := base_time s now + d } : OneshotTimer) =
      newTimer s now cb d src := rfl
  rw [hnt, hidx]
  dsimp only
  set s1 : TimerState :=
    { s with next_timer_handle := s.next_timer_handle + 1,
             timers := insertAt s.timers i (newTimer s now cb d src) }
    with hs1
  have hI1 : Inv s1 := ⟨hsorted2, hbound2, hne2, h.reqLe, h.reqMono⟩
  by_cases hn : is_next_timer s1 s.next_timer_handle = true
  · rw [if_pos hn]
    obtain ⟨ht, hinvk, hss, hso, hnext, hjs, hact, hnl, hexp⟩ :=
      schedule_timer_call_unchanged s1 now
    refine ⟨schedule_timer_call s1 now, rfl, schedule_timer_call_inv hI1,
      ?_, ?_, ?_, ?_, ?_, ?_, ?_, ?_, ?_, ?_⟩
    · rw [hnext]
    · rw [hinvk]
    · rw [hss]
    · rw [hso]
    · rw [hjs]
    · rw [hact]
    · rw [hnl]
    · exact hexp
    · rw [ht]
      exact self_mem_insertAt _ _ _
    · rw [ht]
      exact fun x hx => mem_insertAt hx
  · rw [if_neg hn]
    exact ⟨s1, rfl, hI1, rfl, rfl, rfl, rfl, rfl, rfl, rfl, le_rfl,
      self_mem_insertAt _ _ _, fun x hx => mem_insertAt hx⟩

theorem unschedule_spec (s : TimerState) (now handle : Nat) (hI : Inv s) :
    Inv (unschedule_callback s now handle) ∧
    (unschedule_callback s now handle).timers =
      s.timers.filter (fun t => t.handle ≠ handle) ∧
    (unschedule_callback s now handle).invoked = s.invoked ∧
    (unschedule_callback s now handle).suspended_since = s.suspended_since ∧
    (unschedule_callback s now handle).suspension_offset =
      s.suspension_offset ∧
    (unschedule_callback s now handle).next_timer_handle =
      s.next_timer_handle ∧
    (unschedule_callback s now handle).js_next_handle = s.js_next_handle ∧
    (unschedule_callback s now handle).active_timers = s.active_timers ∧
    (unschedule_callback s now handle).nesting_level = s.nesting_level ∧
    s.expected_event_id ≤
      (unschedule_callback s now handle).expected_event_id := by
  unfold unschedule_callback invalidate_expected_event_id
  dsimp only
  set s1 : TimerState :=
    { s with timers := s.timers.filter (fun t => t.handle ≠ handle) }
    with hs1
  have hI1 : Inv s1 :=
    ⟨hI.sorted.filter _,
     fun x hx => hI.bounded x ((List.filter_sublist s.timers).mem hx),
     hI.handlesNe.filter _, hI.reqLe, hI.reqMono⟩
  by_cases hn : is_next_timer s handle = true
  · rw [if_pos hn]
    have hI2 : Inv { s1 with expected_event_id := s.expected_event_id + 1 } :=
      ⟨hI1.sorted, hI1.bounded, hI1.handlesNe,
       fun r hr => le_trans (hI1.reqLe r hr) (Nat.le_succ _), hI1.reqMono⟩
    obtain ⟨ht, hinvk, hss, hso, hnext, hjs, hact, hnl, hexp⟩ :=
      schedule_timer_call_unchanged
        { s1 with expected_event_id := s.expected_event_id + 1 } now
    refine ⟨schedule_timer_call_inv hI2, ?_, ?_, ?_, ?_, ?_, ?_, ?_, ?_, ?_⟩
    · rw [ht]
    · rw [hinvk]
    · rw [hss]
    · rw [hso]
    · rw [hnext]
    · rw [hjs]
    · rw [hact]
    · rw [hnl]
    · exact le_trans (Nat.le_succ _) hexp
  · rw [if_neg hn]
    exact ⟨hI1, rfl, rfl, rfl, rfl, rfl, rfl, rfl, rfl, le_rfl⟩

theorem suspend_eq (s : TimerState) (now : Nat)
    (hs : s.suspended_since = none) :
    suspend s now = some
      { s with suspended_since := some now,
               expected_event_id := s.expected_event_id + 1 } := by
  unfold suspend invalidate_expected_event_id
  rw [hs]

theorem suspend_inv {s s' : TimerState} {now : Nat} (hI : Inv s)
    (h : suspend s now = some s') : Inv s' := by
  unfold suspend invalidate_expected_event_id at h
  cases hsusp : s.suspended_since with
  | some t0 =>
    rw [hsusp] at h
    cases h
  | none =>
    rw [hsusp] at h
    dsimp only at h
    obtain rfl := Option.some.inj h
    exact ⟨hI.sorted, hI.bounded, hI.handlesNe,
      fun r hr => le_trans (hI.reqLe r hr) (Nat.le_succ _), hI.reqMono⟩

theorem resume_eq (s : TimerState) (now t0 : Nat)
    (hs : s.suspended_since = some t0) :
    resume s now = some (schedule_timer_call
      { s with suspension_offset := s.suspension_offset + (now - t0),
               suspended_since := none } now) := by
  unfold resume
  rw [hs]

theorem resume_inv {s s' : TimerState} {now : Nat} (hI : Inv s)
    (h : resume s now = some s') : Inv s' := by
  unfold resume at h
  cases hsusp : s.suspended_since with
  | none =>
    rw [hsusp] at h
    cases h
  | some t0 =>
    rw [hsusp] at h
    dsimp only at h
    obtain rfl := Option.some.inj h
    exact schedule_timer_call_inv
      ⟨hI.sorted, hI.bounded, hI.handlesNe, hI.reqLe, hI.reqMono⟩

theorem getAssoc_setAssoc (m : List (Nat × Nat)) (k v : Nat) :
    getAssoc (setAssoc m k v) k = some v := by
  induction m with
  | nil => simp [setAssoc, getAssoc]
  | cons p rest ih =>
    obtain ⟨a, b⟩ := p
    by_cases hk : a = k
    · subst hk
      simp [setAssoc, getAssoc]
    · simp only [setAssoc, if_neg hk, getAssoc]
      exact ih

theorem initializeAndSchedule_spec (s : TimerState) (now : Nat)
    (task : JsTimerTask) (hI : Inv s) :
    ∃ s', initializeAndSchedule s now task = some s' ∧ Inv s' ∧
      s'.invoked = s.invoked ∧
      s'.suspended_since = s.suspended_since ∧
      s'.suspension_offset = s.suspension_offset ∧
      s'.nesting_level = s.nesting_level ∧
      s'.js_next_handle = s.js_next_handle ∧
      s'.next_timer_handle = s.next_timer_handle + 1 ∧
      getAssoc s'.active_timers task.handle = some s.next_timer_handle ∧
      newTimer s now (OneshotTimerCallback.jsTimer
          { task with nesting_level := s.nesting_level + 1 })
        (clamp_duration s.nesting_level task.duration) task.source ∈
        s'.timers := by
  obtain ⟨s1, heq, hI1, hnext, hinvk, hss, hso, hjs, hact, hnl, _, hmem, _⟩ :=
    schedule_callback_spec s now
      (OneshotTimerCallback.jsTimer
        { task with nesting_level := s.nesting_level + 1 })
      (clamp_duration s.nesting_level task.duration) task.source hI
  unfold initializeAndSchedule
  dsimp only
  rw [heq]
  refine ⟨_, rfl, ?_, hinvk, hss, hso, hnl, hjs, hnext, ?_, hmem⟩
  · exact ⟨hI1.sorted, hI1.bounded, hI1.handlesNe, hI1.reqLe, hI1.reqMono⟩
  · exact getAssoc_setAssoc s1.active_timers task.handle s.next_timer_handle

theorem set_timeout_spec (s : TimerState) (now : Nat)
    (body : List TimerEffect) (timeout : Int) (isI : Bool)
    (src : TimerSource) (hI : Inv s) :
    ∃ s', set_timeout_or_interval s now body timeout isI src =
        some (s.js_next_handle, s') ∧ Inv s' ∧
      s'.invoked = s.invoked ∧
      s'.suspended_since = s.suspended_since ∧
      s'.suspension_offset = s.suspension_offset ∧
      s'.nesting_level = s.nesting_level ∧
      s'.js_next_handle = s.js_next_handle + 1 ∧
      s'.next_timer_handle = s.next_timer_handle + 1 ∧
      getAssoc s'.active_timers s.js_next_handle =
        some s.next_timer_handle ∧
      newTimer s now (OneshotTimerCallback.jsTimer
          { handle := s.js_next_handle, source := src, callback := body,
            is_interval := isI, nesting_level := s.nesting_level + 1,
            duration := (max 0 timeout).toNat })
        (clamp_duration s.nesting_level (max 0 timeout).toNat) src ∈
        s'.timers := by
  obtain ⟨s1, heq, hI1, hinvk, hss, hso, hnl, hjs, hnext, hget, hmem⟩ :=
    initializeAndSchedule_spec
      { s with js_next_handle := s.js_next_handle + 1 } now
      { handle := s.js_next_handle, source := src, callback := body,
        is_interval := isI, nesting_level := 0,
        duration := (max 0 timeout).toNat }
      ⟨hI.sorted, hI.bounded, hI.handlesNe, hI.reqLe, hI.reqMono⟩
  unfold set_timeout_or_interval
  dsimp only
  rw [heq]
  exact ⟨s1, rfl, hI1, hinvk, hss, hso, hnl, hjs.trans rfl, hnext, hget,
    hmem⟩

theorem clear_spec (s : TimerState) (now handle : Nat) (hI : Inv s) :
    Inv (clear_timeout_or_interval s now handle) ∧
    (clear_timeout_or_interval s now handle).invoked = s.invoked := by
  unfold clear_timeout_or_interval
  cases hget : getAssoc s.active_timers handle with
  | none => exact ⟨hI, rfl⟩
  | some oneshot =>
    obtain ⟨hInv2, _, hinvk, _⟩ :=
      unschedule_spec
        { s with active_timers := removeAssoc s.active_timers handle }
        now oneshot
        ⟨hI.sorted, hI.bounded, hI.handlesNe, hI.reqLe, hI.reqMono⟩
    exact ⟨hInv2, hinvk⟩

theorem runEffect_spec {s s' : TimerState} {now : Nat} {e : TimerEffect}
    (hI : Inv s) (he : runEffect s now e = some s') :
    Inv s' ∧ s'.invoked = s.invoked := by
  cases e with
  | setTimeout timeout isI body src =>
    unfold runEffect at he
    dsimp only at he
    obtain ⟨s1, heq, hI1, hinvk, _⟩ :=
      set_timeout_spec s now body timeout isI src hI
    rw [heq] at he
    dsimp only at he
    obtain rfl := Option.some.inj he
    exact ⟨hI1, hinvk⟩
  | clearTimer handle =>
    unfold runEffect at he
    obtain rfl := Option.some.inj he
    exact clear_spec s now handle hI

theorem runEffects_spec {now : Nat} :
    ∀ (es : List TimerEffect) (s s' : TimerState), Inv s →
    runEffects now s es = some s' → Inv s' ∧ s'.invoked = s.invoked := by
  intro es
  induction es with
  | nil =>
    intro s s' hI he
    obtain rfl := Option.some.inj he
    exact ⟨hI, rfl⟩
  | cons e rest ih =>
    intro s s' hI he
    unfold runEffects at he
    cases h1 : runEffect s now e with
    | none =>
      rw [h1] at he
      cases he
    | some s1 =>
      rw [h1] at he
      obtain ⟨hI1, hinv1⟩ := runEffect_spec hI h1
      obtain ⟨hI2, hinv2⟩ := ih s1 s' hI1 he
      exact ⟨hI2, hinv2.trans hinv1⟩

theorem invoke_spec {task : JsTimerTask} {s s' : TimerState} {now : Nat}
    (hI : Inv s) (h : task.invoke s now = some s') :
    Inv s' ∧ s'.invoked = s.invoked := by
  unfold JsTimerTask.invoke at h
  dsimp only at h
  cases h1 : runEffects now { s with nesting_level := task.nesting_level }
      task.callback with
  | none =>
    rw [h1] at h
    cases h
  | some s1 =>
    rw [h1] at h
    dsimp only at h
    obtain ⟨hI1, hinv1⟩ :=
      runEffects_spec task.callback
        { s with nesting_level := task.nesting_level } s1
        ⟨hI.sorted, hI.bounded, hI.handlesNe, hI.reqLe, hI.reqMono⟩ h1
    have hI2 : Inv { s1 with nesting_level := 0 } :=
      ⟨hI1.sorted, hI1.bounded, hI1.handlesNe, hI1.reqLe, hI1.reqMono⟩
    by_cases hc : task.is_interval = true ∧
        containsKey s1.active_timers task.handle = true
    · rw [if_pos hc] at h
      obtain ⟨s2, heq, hI3, hinvk, _⟩ :=
        initializeAndSchedule_spec { s1 with nesting_level := 0 } now task hI2
      rw [heq] at h
      obtain rfl := Option.some.inj h
      exact ⟨hI3, hinvk.trans hinv1⟩
    · rw [if_neg hc] at h
      obtain rfl := Option.some.inj h
      exact ⟨hI2, hinv1⟩

theorem invokeCb_spec {cb : OneshotTimerCallback} {s s' : TimerState}
    {now : Nat} (hI : Inv s)
    (h : OneshotTimerCallback.invokeCb cb s now = some s') :
    Inv s' ∧ s'.invoked = s.invoked := by
  cases cb with
  | xhrTimeout =>
    unfold OneshotTimerCallback.invokeCb at h
    obtain rfl := Option.some.inj h
    exact ⟨hI, rfl⟩
  | jsTimer task =>
    unfold OneshotTimerCallback.invokeCb at h
    exact invoke_spec hI h

theorem runTimersToRun_spec {now : Nat} :
    ∀ (l : List OneshotTimer) (s s' : TimerState), Inv s →
    runTimersToRun now s l = some s' →
    Inv s' ∧ s'.invoked = s.invoked ++ l.map mkRecord := by
  intro l
  induction l with
  | nil =>
    intro s s' hI h
    obtain rfl := Option.some.inj h
    exact ⟨hI, by simp⟩
  | cons t rest ih =>
    intro s s' hI h
    unfold runTimersToRun at h
    cases h1 : OneshotTimerCallback.invokeCb t.callback
        { s with invoked := s.invoked ++ [mkRecord t] } now with
    | none =>
      rw [h1] at h
      cases h
    | some s1 =>
      rw [h1] at h
      have hImid : Inv { s with invoked := s.invoked ++ [mkRecord t] } :=
        ⟨hI.sorted, hI.bounded, hI.handlesNe, hI.reqLe, hI.reqMono⟩
      obtain ⟨hI1, hinv1⟩ := invokeCb_spec hImid h1
      obtain ⟨hI2, hinv2⟩ := ih s1 s' hI1 h
      refine ⟨hI2, ?_⟩
      rw [hinv2, hinv1]
      simp

theorem fire_spec {s s' : TimerState} {now id : Nat} (hI : Inv s)
    (hf : fire_timer s now id = some s') :
    Inv s' ∧ ∃ tail, s'.invoked = s.invoked ++ tail ∧
      ∀ r ∈ tail, ∃ t, t ∈ s.timers ∧ mkRecord t = r ∧
        isDue (base_time s now) t = true := by
  unfold fire_timer at hf
  by_cases hid : s.expected_event_id ≠ id
  · rw [if_pos hid] at hf
    obtain rfl := Option.some.inj hf
    exact ⟨hI, [], by simp, by simp⟩
  · rw [if_neg hid] at hf
    by_cases hsusp : s.suspended_since.isSome = true
    · rw [if_pos hsusp] at hf
      cases hf
    · rw [if_neg hsusp] at hf
      dsimp only at hf
      cases hlast : s.timers.getLast? with
      | none =>
        rw [hlast] at hf
        cases hf
      | some last_timer =>
        rw [hlast] at hf
        dsimp only at hf
        by_cases hbt : base_time s now < last_timer.scheduled_for
        · rw [if_pos hbt] at hf
          cases hf
        · rw [if_neg hbt] at hf
          have hImid : Inv { s with timers :=
              (popDue (base_time s now) s.timers.length s.timers []).1 } :=
            ⟨hI.sorted.sublist
               (popDue_fst_sublist (base_time s now) s.timers.length
                 s.timers []),
             fun x hx => hI.bounded x
               ((popDue_fst_sublist (base_time s now) s.timers.length
                 s.timers []).mem hx),
             hI.handlesNe.sublist
               (popDue_fst_sublist (base_time s now) s.timers.length
                 s.timers []),
             hI.reqLe, hI.reqMono⟩
          cases h1 : runTimersToRun now
              { s with timers :=
                  (popDue (base_time s now) s.timers.length s.timers []).1 }
              (popDue (base_time s now) s.timers.length s.timers []).2 with
          | none =>
            rw [h1] at hf
            cases hf
          | some s2 =>
            rw [h1] at hf
            obtain rfl := Option.some.inj hf
            obtain ⟨hI2, hinv2⟩ := runTimersToRun_spec _ _ s2 hImid h1
            refine ⟨schedule_timer_call_inv hI2, ?_⟩
            refine ⟨(popDue (base_time s now) s.timers.length
              s.timers []).2.map mkRecord, ?_, ?_⟩
            · rw [(schedule_timer_call_unchanged s2 now).2.1, hinv2]
            · intro r hr
              obtain ⟨t, ht, rfl⟩ := List.mem_map.mp hr
              rcases popDue_snd_mem (base_time s now) s.timers.length
                  s.timers [] t ht with h2 | h2
              · cases h2
              · exact ⟨t, h2.1, rfl, h2.2⟩

theorem reachable_inv {s : TimerState} (h : Reachable s) : Inv s := by
  induction h with
  | init =>
    refine ⟨?_, ?_, ?_, ?_, ?_⟩ <;> simp [initialState, SortedT]
  | schedule hr heq ih =>
    obtain ⟨s2, heq2, hI2, _⟩ := schedule_callback_spec _ _ _ _ _ ih
    have h3 := Option.some.inj (heq.symm.trans heq2)
    rw [Prod.mk.injEq] at h3
    rw [h3.2]
    exact hI2
  | unschedule hr ih =>
    exact (unschedule_spec _ _ _ ih).1
  | fire hr heq ih =>
    exact (fire_spec ih heq).1
  | suspendStep hr heq ih =>
    exact suspend_inv ih heq
  | resumeStep hr heq ih =>
    exact resume_inv ih heq
  | setTimeout hr heq ih =>
    obtain ⟨s2, heq2, hI2, _⟩ := set_timeout_spec _ _ _ _ _ _ ih
    have h3 := Option.some.inj (heq.symm.trans heq2)
    rw [Prod.mk.injEq] at h3
    rw [h3.2]
    exact hI2
  | clearTimer hr ih =>
    exact (clear_spec _ _ _ ih).1

/-! ### The invocation log: only the firing loop appends to it -/

theorem schedule_callback_invoked {s s' : TimerState} {now d : Nat}
    {cb : OneshotTimerCallback} {src : TimerSource} {h : Nat}
    (heq : schedule_callback s now cb d src = some (h, s')) :
    s'.invoked = s.invoked := by
  unfold schedule_callback at heq
  dsimp only at heq
  split at heq
  · cases heq
  · rename_i i hidx
    split at heq
    · obtain h2 := Option.some.inj heq
      injection h2 with hh hs
      rw [← hs]
      exact (schedule_timer_call_unchanged _ now).2.1
    · obtain h2 := Option.some.inj heq
      injection h2 with hh hs
      rw [← hs]

theorem unschedule_invoked (s : TimerState) (now handle : Nat) :
    (unschedule_callback s now handle).invoked = s.invoked := by
  unfold unschedule_callback
  dsimp only
  split
  · exact (schedule_timer_call_unchanged _ now).2.1
  · rfl

theorem initializeAndSchedule_invoked {s s' : TimerState} {now : Nat}
    {task : JsTimerTask}
    (heq : initializeAndSchedule s now task = some s') :
    s'.invoked = s.invoked := by
  unfold initializeAndSchedule at heq
  dsimp only at heq
  split at heq
  · cases heq
  · rename_i oneshot_handle s1 hp
    obtain rfl := Option.some.inj heq
    have h3 := schedule_callback_invoked hp
    exact h3

theorem set_timeout_invoked {s s' : TimerState} {now : Nat}
    {body : List TimerEffect} {timeout : Int} {isI : Bool}
    {src : TimerSource} {h : Nat}
    (heq : set_timeout_or_interval s now body timeout isI src =
      some (h, s')) :
    s'.invoked = s.invoked := by
  unfold set_timeout_or_interval at heq
  dsimp only at heq
  split at heq
  · cases heq
  · rename_i s1 h1
    obtain h2 := Option.some.inj heq
    injection h2 with hh hs
    have h3 := initializeAndSchedule_invoked h1
    rw [← hs]
    exact h3

theorem clear_invoked (s : TimerState) (now handle : Nat) :
    (clear_timeout_or_interval s now handle).invoked = s.invoked := by
  unfold clear_timeout_or_interval
  split
  · rfl
  · exact unschedule_invoked _ now _

theorem runEffect_invoked {s s' : TimerState} {now : Nat} {e : TimerEffect}
    (he : runEffect s now e = some s') : s'.invoked = s.invoked := by
  cases e with
  | setTimeout timeout isI body src =>
    unfold runEffect at he
    dsimp only at he
    split at he
    · cases he
    · rename_i p hp
      obtain rfl := Option.some.inj he
      obtain ⟨h1, s1⟩ := p
      exact set_timeout_invoked hp
  | clearTimer handle =>
    unfold runEffect at he
    obtain rfl := Option.some.inj he
    exact clear_invoked s now handle

theorem runEffects_invoked {now : Nat} :
    ∀ (es : List TimerEffect) (s s' : TimerState),
    runEffects now s es = some s' → s'.invoked = s.invoked := by
  intro es
  induction es with
  | nil =>
    intro s s' he
    obtain rfl := Option.some.inj he
    rfl
  | cons e rest ih =>
    intro s s' he
    unfold runEffects at he
    split at he
    · cases he
    · rename_i s1 h1
      exact (ih s1 s' he).trans (runEffect_invoked h1)

theorem invoke_invoked {task : JsTimerTask} {s s' : TimerState} {now : Nat}
    (h : task.invoke s now = some s') : s'.invoked = s.invoked := by
  unfold JsTimerTask.invoke at h
  dsimp only at h
  split at h
  · cases h
  · rename_i s1 h1
    have hb := runEffects_invoked _ _ _ h1
    split at h
    · exact (initializeAndSchedule_invoked h).trans hb
    · obtain rfl := Option.some.inj h
      exact hb

theorem invokeCb_invoked {cb : OneshotTimerCallback} {s s' : TimerState}
    {now : Nat} (h : OneshotTimerCallback.invokeCb cb s now = some s') :
    s'.invoked = s.invoked := by
  cases cb with
  | xhrTimeout =>
    unfold OneshotTimerCallback.invokeCb at h
    obtain rfl := Option.some.inj h
    rfl
  | jsTimer task =>
    unfold OneshotTimerCallback.invokeCb at h
    exact invoke_invoked h

theorem runTimersToRun_invoked {now : Nat} :
    ∀ (l : List OneshotTimer) (s s' : TimerState),
    runTimersToRun now s l = some s' →
    s'.invoked = s.invoked ++ l.map mkRecord := by
  intro l
  induction l with
  | nil =>
    intro s s' h
    obtain rfl := Option.some.inj h
    simp
  | cons t rest ih =>
    intro s s' h
    unfold runTimersToRun at h
    split at h
    · cases h
    · rename_i s1 h1
      have h2 := ih s1 s' h
      have h3 := invokeCb_invoked h1
      rw [h2, h3]
      simp

/-- Every successful fire appends exactly the records of entries that were
pending and due in the pre-state; nothing else is ever invoked. -/
theorem fire_timer_invoked {s s' : TimerState} {now id : Nat}
    (hf : fire_timer s now id = some s') :
    ∃ tail, s'.invoked = s.invoked ++ tail ∧
      ∀ r ∈ tail, ∃ t, t ∈ s.timers ∧ mkRecord t = r ∧
        isDue (base_time s now) t = true := by
  unfold fire_timer at hf
  split at hf
  · obtain rfl := Option.some.inj hf
    exact ⟨[], by simp, by simp⟩
  · split at hf
    · cases hf
    · dsimp only at hf
      split at hf
      · cases hf
      · rename_i last_timer hlast
        split at hf
        · cases hf
        · split at hf
          · cases hf
          · rename_i s2 h2
            obtain rfl := Option.some.inj hf
            refine ⟨(popDue (base_time s now) s.timers.length
              s.timers []).2.map mkRecord, ?_, ?_⟩
            · rw [(schedule_timer_call_unchanged s2 now).2.1,
                runTimersToRun_invoked _ _ _ h2]
            · intro r hr
              obtain ⟨t, ht, rfl⟩ := List.mem_map.mp hr
              rcases popDue_snd_mem (base_time s now) s.timers.length
                  s.timers [] t ht with h3 | h3
              · cases h3
              · exact ⟨t, h3.1, rfl, h3.2⟩

/-! ### Concrete executions used by the claims -/

/-- Schedule A (50ms), then B (10ms), then C (10ms), all at wall-clock 0
(the spec's ordering scenario). -/
def c2s : Option TimerState :=
  (schedule_callback initialState 0 OneshotTimerCallback.xhrTimeout 50 0).bind
    fun p => (schedule_callback p.2 0 OneshotTimerCallback.xhrTimeout
      10 0).bind
    fun q => (schedule_callback q.2 0 OneshotTimerCallback.xhrTimeout
      10 0).map
    fun r => r.2

/-- The state holding A, B, C. -/
def c2pre : TimerState := c2s.getD initialState

/-- Fire at wall-clock 50 with the expected generation id. -/
def c2state : Option TimerState :=
  fire_timer c2pre 50 c2pre.expected_event_id

/-- Concrete suspended state for the witnesses. -/
def w1 : TimerState := (suspend initialState 3).getD initialState

/-- Concrete resumed state for the witnesses. -/
def w2 : TimerState := (resume w1 5).getD initialState

/-- Concrete state after one schedule for the witnesses. -/
def w3 : TimerState :=
  ((schedule_callback initialState 0 OneshotTimerCallback.xhrTimeout
    10 0).map Prod.snd).getD initialState

/-- C1: For every call to fire with a notification id equal to the current
expected generation id, the queue first collects and removes, before
invoking anything, exactly the entries whose deadline is ≤ the current
logical time, and invokes those collected callbacks in ascending-deadline
order (ties in registration order); any entry inserted after the collection
pass started — including entries scheduled by the callbacks being invoked —
is not invoked in this batch.  Formally: the appended invocation records are
exactly the due entries of the pre-state (so nothing scheduled during the
fire is in the batch), listed in ascending (deadline, handle) order. -/
theorem C1_fire_collects_due_batch (s s' : TimerState) (now : Nat)
    (hs : SortedT s.timers)
    (hf : fire_timer s now s.expected_event_id = some s') :
    s'.invoked = s.invoked ++
      ((s.timers.filter (fun t => isDue (base_time s now) t)).reverse.map
        mkRecord) ∧
    ((s.timers.filter (fun t => isDue (base_time s now) t)).reverse.map
        mkRecord).Pairwise (fun a b =>
      a.scheduled_for < b.scheduled_for ∨
        (a.scheduled_for = b.scheduled_for ∧ a.handle < b.handle)) := by
  have hbatch : ((s.timers.filter
      (fun t => isDue (base_time s now) t)).reverse.map mkRecord).Pairwise
      (fun a b => a.scheduled_for < b.scheduled_for ∨
        (a.scheduled_for = b.scheduled_for ∧ a.handle < b.handle)) := by
    have h3 : ((s.timers.filter
        (fun t => isDue (base_time s now) t)).reverse).Pairwise keyLt := by
      rw [List.pairwise_reverse]
      exact (hs.filter (fun t => isDue (base_time s now) t)).imp
        (fun hab => cmp_eq_lt.mp hab)
    exact List.pairwise_map.mpr (h3.imp (fun hab => hab))
  refine ⟨?_, hbatch⟩
  unfold fire_timer at hf
  rw [if_neg (fun hne => hne rfl)] at hf
  split at hf
  · exact absurd hf (by simp)
  · dsimp only at hf
    split at hf
    · cases hf
    · rename_i last_timer hlast
      split at hf
      · cases hf
      · rename_i hbt
        have hpair : s.timers.Pairwise
            (fun a b => b.scheduled_for ≤ a.scheduled_for) := by
          refine hs.imp (fun hab => ?_)
          have h4 := cmp_eq_lt.mp hab
          unfold keyLt at h4
          omega
        have hpd := popDue_eq_filter (base_time s now) s.timers []
          s.timers.length le_rfl hpair
        rw [hpd] at hf
        dsimp only at hf
        split at hf
        · cases hf
        · rename_i s2 h2
          obtain rfl := Option.some.inj hf
          rw [(schedule_timer_call_unchanged s2 now).2.1,
            runTimersToRun_invoked _ _ _ h2]
          simp

theorem C1_fire_collects_due_batch_witness :
    SortedT c2pre.timers ∧
    ∃ s', fire_timer c2pre 50 c2pre.expected_event_id = some s' ∧
      s'.invoked = c2pre.invoked ++
        ((c2pre.timers.filter
          (fun t => isDue (base_time c2pre 50) t)).reverse.map mkRecord) := by
  have hs : SortedT c2pre.timers := by
    unfold SortedT
    decide
  have hf : fire_timer c2pre 50 c2pre.expected_event_id =
      some (c2state.getD initialState) := by rfl
  exact ⟨hs, c2state.getD initialState, hf,
    (C1_fire_collects_due_batch c2pre (c2state.getD initialState) 50
      hs hf).1⟩

/-- C2: In every reachable state the pending-timer vector is sorted so the
entry with the earliest deadline (ties: smallest handle, i.e. earliest
registration) is the last element, the one accessed and removed first; in
particular the A(50)/B(10)/C(10) scenario fires in order B, C, A at base
time 50. -/
theorem C2_priority_queue_order (s : TimerState) (hr : Reachable s) :
    SortedT s.timers ∧
    (∀ m, s.timers.getLast? = some m → ∀ t ∈ s.timers,
      m.scheduled_for < t.scheduled_for ∨
        (m.scheduled_for = t.scheduled_for ∧ m.handle ≤ t.handle)) ∧
    c2state.map (fun st => st.invoked.map InvokeRecord.handle) =
      some [2, 3, 1] := by
  have hI := reachable_inv hr
  refine ⟨hI.sorted, ?_, rfl⟩
  intro m hm t ht
  obtain ⟨j, hj, rfl⟩ := List.mem_iff_getElem.mp ht
  have hne : s.timers ≠ [] := by
    intro he
    rw [he] at hm
    cases hm
  have hlen : s.timers.length - 1 < s.timers.length := by
    cases hts : s.timers with
    | nil => exact absurd hts hne
    | cons a l =>
      simp
  have hm2 : m = s.timers[s.timers.length - 1] := by
    rw [List.getLast?_eq_getElem?, List.getElem?_eq_getElem hlen] at hm
    exact (Option.some.inj hm).symm
  by_cases hje : j = s.timers.length - 1
  · subst hje
    rw [hm2]
    exact Or.inr ⟨rfl, le_rfl⟩
  · have hjlt : j < s.timers.length - 1 := by omega
    have h5 := List.pairwise_iff_get.mp hI.sorted ⟨j, hj⟩
      ⟨s.timers.length - 1, hlen⟩ (Fin.mk_lt_mk.mpr hjlt)
    rw [cmp_eq_lt] at h5
    rw [List.get_eq_getElem, List.get_eq_getElem] at h5
    unfold keyLt at h5
    rw [hm2]
    rcases h5 with h6 | h6
    · exact Or.inl h6
    · exact Or.inr ⟨h6.1, le_of_lt h6.2⟩

theorem C2_priority_queue_order_witness :
    SortedT initialState.timers ∧
    c2state.map (fun st => st.invoked.map InvokeRecord.handle) =
      some [2, 3, 1] := by
  have h := C2_priority_queue_order initialState Reachable.init
  exact ⟨h.1, h.2.2⟩

/-! ### The expected generation id never decreases -/

theorem schedule_callback_expected {s s' : TimerState} {now d : Nat}
    {cb : OneshotTimerCallback} {src : TimerSource} {h : Nat}
    (heq : schedule_callback s now cb d src = some (h, s')) :
    s.expected_event_id ≤ s'.expected_event_id := by
  unfold schedule_callback at heq
  dsimp only at heq
  split at heq
  · cases heq
  · rename_i i hidx
    split at heq
    · obtain h2 := Option.some.inj heq
      injection h2 with hh hs
      rw [← hs]
      exact (schedule_timer_call_unchanged
        { s with next_timer_handle := s.next_timer_handle + 1,
                 timers := insertAt s.timers i (newTimer s now cb d src) }
        now).2.2.2.2.2.2.2.2
    · obtain h2 := Option.some.inj heq
      injection h2 with hh hs
      rw [← hs]

theorem unschedule_expected (s : TimerState) (now handle : Nat) :
    s.expected_event_id ≤
      (unschedule_callback s now handle).expected_event_id := by
  unfold unschedule_callback invalidate_expected_event_id
  dsimp only
  split
  · exact le_trans (Nat.le_succ _)
      ((schedule_timer_call_unchanged
        { s with timers := s.timers.filter (fun t => t.handle ≠ handle),
                 expected_event_id := s.expected_event_id + 1 }
        now).2.2.2.2.2.2.2.2)
  · exact le_rfl

theorem suspend_expected {s s' : TimerState} {now : Nat}
    (h : suspend s now = some s') :
    s.expected_event_id ≤ s'.expected_event_id := by
  unfold suspend invalidate_expected_event_id at h
  split at h
  · cases h
  · obtain rfl := Option.some.inj h
    exact Nat.le_succ _

theorem resume_expected {s s' : TimerState} {now : Nat}
    (h : resume s now = some s') :
    s.expected_event_id ≤ s'.expected_event_id := by
  unfold resume at h
  split at h
  · cases h
  · rename_i t0 hsusp
    obtain rfl := Option.some.inj h
    exact (schedule_timer_call_unchanged
      { s with suspension_offset := s.suspension_offset + (now - t0),
               suspended_since := none } now).2.2.2.2.2.2.2.2

theorem initializeAndSchedule_expected {s s' : TimerState} {now : Nat}
    {task : JsTimerTask}
    (heq : initializeAndSchedule s now task = some s') :
    s.expected_event_id ≤ s'.expected_event_id := by
  unfold initializeAndSchedule at heq
  dsimp only at heq
  split at heq
  · cases heq
  · rename_i oneshot_handle s1 hp
    obtain rfl := Option.some.inj heq
    have h3 := schedule_callback_expected hp
    exact h3

theorem set_timeout_expected {s s' : TimerState} {now : Nat}
    {body : List TimerEffect} {timeout : Int} {isI : Bool}
    {src : TimerSource} {h : Nat}
    (heq : set_timeout_or_interval s now body timeout isI src =
      some (h, s')) :
    s.expected_event_id ≤ s'.expected_event_id := by
  unfold set_timeout_or_interval at heq
  dsimp only at heq
  split at heq
  · cases heq
  · rename_i s1 h1
    obtain h2 := Option.some.inj heq
    injection h2 with hh hs
    have h3 := initializeAndSchedule_expected h1
    rw [← hs]
    exact h3

theorem clear_expected (s : TimerState) (now handle : Nat) :
    s.expected_event_id ≤
      (clear_timeout_or_interval s now handle).expected_event_id := by
  unfold clear_timeout_or_interval
  split
  · exact le_rfl
  · rename_i oneshot hget
    exact unschedule_expected
      { s with active_timers := removeAssoc s.active_timers handle } now
      oneshot

theorem runEffect_expected {s s' : TimerState} {now : Nat}
    {e : TimerEffect} (he : runEffect s now e = some s') :
    s.expected_event_id ≤ s'.expected_event_id := by
  cases e with
  | setTimeout timeout isI body src =>
    unfold runEffect at he
    dsimp only at he
    split at he
    · cases he
    · rename_i p hp
      obtain rfl := Option.some.inj he
      obtain ⟨h1, s1⟩ := p
      exact set_timeout_expected hp
  | clearTimer handle =>
    unfold runEffect at he
    obtain rfl := Option.some.inj he
    exact clear_expected s now handle

theorem runEffects_expected {now : Nat} :
    ∀ (es : List TimerEffect) (s s' : TimerState),
    runEffects now s es = some s' →
    s.expected_event_id ≤ s'.expected_event_id := by
  intro es
  induction es with
  | nil =>
    intro s s' he
    obtain rfl := Option.some.inj he
    exact le_rfl
  | cons e rest ih =>
    intro s s' he
    unfold runEffects at he
    split at he
    · cases he
    · rename_i s1 h1
      exact le_trans (runEffect_expected h1) (ih s1 s' he)

theorem invoke_expected {task : JsTimerTask} {s s' : TimerState}
    {now : Nat} (h : task.invoke s now = some s') :
    s.expected_event_id ≤ s'.expected_event_id := by
  unfold JsTimerTask.invoke at h
  dsimp only at h
  split at h
  · cases h
  · rename_i s1 h1
    have hb := runEffects_expected _ _ _ h1
    split at h
    · have h4 := initializeAndSchedule_expected h
      exact le_trans hb h4
    · obtain rfl := Option.some.inj h
      exact hb

theorem invokeCb_expected {cb : OneshotTimerCallback} {s s' : TimerState}
    {now : Nat} (h : OneshotTimerCallback.invokeCb cb s now = some s') :
    s.expected_event_id ≤ s'.expected_event_id := by
  cases cb with
  | xhrTimeout =>
    unfold OneshotTimerCallback.invokeCb at h
    obtain rfl := Option.some.inj h
    exact le_rfl
  | jsTimer task =>
    unfold OneshotTimerCallback.invokeCb at h
    exact invoke_expected h

theorem runTimersToRun_expected {now : Nat} :
    ∀ (l : List OneshotTimer) (s s' : TimerState),
    runTimersToRun now s l = some s' →
    s.expected_event_id ≤ s'.expected_event_id := by
  intro l
  induction l with
  | nil =>
    intro s s' h
    obtain rfl := Option.some.inj h
    exact le_rfl
  | cons t rest ih =>
    intro s s' h
    unfold runTimersToRun at h
    split at h
    · cases h
    · rename_i s1 h1
      have h2 := invokeCb_expected h1
      exact le_trans h2 (ih s1 s' h)

theorem fire_timer_expected {s s' : TimerState} {now id : Nat}
    (hf : fire_timer s now id = some s') :
    s.expected_event_id ≤ s'.expected_event_id := by
  unfold fire_timer at hf
  split at hf
  · obtain rfl := Option.some.inj hf
    exact le_rfl
  · split at hf
    · cases hf
    · dsimp only at hf
      split at hf
      · cases hf
      · rename_i last_timer hlast
        split at hf
        · cases hf
        · split at hf
          · cases hf
          · rename_i s2 h2
            obtain rfl := Option.some.inj hf
            have h3 := runTimersToRun_expected _ _ _ h2
            exact le_trans h3
              (schedule_timer_call_unchanged s2 now).2.2.2.2.2.2.2.2

/-- One public operation of the subsystem: the single-step transition
relation underlying Reachable. -/
inductive Step : TimerState → TimerState → Prop where
  | schedule {s now cb d src h s'} :
      schedule_callback s now cb d src = some (h, s') → Step s s'
  | unschedule {s now h} : Step s (unschedule_callback s now h)
  | fire {s now id s'} : fire_timer s now id = some s' → Step s s'
  | suspendStep {s now s'} : suspend s now = some s' → Step s s'
  | resumeStep {s now s'} : resume s now = some s' → Step s s'
  | setTimeout {s now body timeout isI src h s'} :
      set_timeout_or_interval s now body timeout isI src = some (h, s') →
      Step s s'
  | clearTimer {s now h} : Step s (clear_timeout_or_interval s now h)

/-- No public operation ever decreases the expected generation id. -/
theorem step_expected_mono {s s' : TimerState} (h : Step s s') :
    s.expected_event_id ≤ s'.expected_event_id := by
  cases h with
  | schedule heq => exact schedule_callback_expected heq
  | unschedule => exact unschedule_expected _ _ _
  | fire heq => exact fire_timer_expected heq
  | suspendStep heq => exact suspend_expected heq
  | resumeStep heq => exact resume_expected heq
  | setTimeout heq => exact set_timeout_expected heq
  | clearTimer => exact clear_expected _ _ _

/-- Suspend the fresh instance at wall-clock 0 (the queue is empty). -/
def c3s1 : Option TimerState := suspend initialState 0

/-- Then resume at wall-clock 5, still with an empty queue. -/
def c3s2 : Option TimerState := c3s1.bind fun st => resume st 5

/-- C3 counterexample: the claim says the id is incremented on every resume,
but resuming with an empty queue leaves the expected generation id
unchanged (suspend bumped it to 1, and it is still 1 after resume because
schedule_timer_call does nothing on an empty queue). -/
theorem C3_counterexample :
    c3s1.map TimerState.expected_event_id = some 1 ∧
    c3s2.map TimerState.expected_event_id = some 1 ∧
    c3s2.map TimerState.timers = some [] :=
  ⟨rfl, rfl, rfl⟩

/-- C3 (amended): The expected generation id never decreases — across every
single public operation and hence every sequence of them; each issued
scheduler request carries the freshly incremented id, issued ids are
strictly increasing and bounded by the current expected id, so at most one
outstanding request is valid at any time.  The id is incremented on
suspension, on cancellation of the current earliest entry, and on every
re-arm that actually issues a request (not suspended and queue non-empty —
covering schedule of a new earliest entry while running, resume with a
non-empty queue, and the post-fire re-arm).  A resume with an empty queue
(and a schedule performed while suspended) does not increment the id. -/
theorem C3_generation_id_protocol :
    (∀ s s', Step s s' →
      s.expected_event_id ≤ s'.expected_event_id) ∧
    (∀ s s', Relation.ReflTransGen Step s s' →
      s.expected_event_id ≤ s'.expected_event_id) ∧
    (∀ s, Reachable s →
      (∀ r ∈ s.scheduler_requests, r.id ≤ s.expected_event_id) ∧
      (s.scheduler_requests.map SchedulerRequest.id).Pairwise
        (fun a b => a < b)) ∧
    (∀ s (now handle : Nat), is_next_timer s handle = true →
      s.expected_event_id <
        (unschedule_callback s now handle).expected_event_id) ∧
    (∀ s (now : Nat), s.suspended_since = none →
      (suspend s now).map TimerState.expected_event_id =
        some (s.expected_event_id + 1)) ∧
    (∀ s (now : Nat) (tm : OneshotTimer), s.suspended_since = none →
      s.timers.getLast? = some tm →
      (schedule_timer_call s now).expected_event_id =
        s.expected_event_id + 1 ∧
      (schedule_timer_call s now).scheduler_requests =
        s.scheduler_requests ++
          [({ source := tm.source, id := s.expected_event_id + 1,
              delay := tm.scheduled_for - now } : SchedulerRequest)]) ∧
    (∀ s s' (now : Nat), resume s now = some s' → s.timers ≠ [] →
      s.expected_event_id < s'.expected_event_id) := by
  refine ⟨?_, ?_, ?_, ?_, ?_, ?_, ?_⟩
  · intro s s' h
    exact step_expected_mono h
  · intro s s' h
    induction h with
    | refl => exact le_rfl
    | tail hrt hst ih => exact le_trans ih (step_expected_mono hst)
  · intro s hr
    have hI := reachable_inv hr
    exact ⟨hI.reqLe, hI.reqMono⟩
  · intro s now handle hn
    unfold unschedule_callback invalidate_expected_event_id
    dsimp only
    rw [if_pos hn]
    obtain ⟨_, _, _, _, _, _, _, _, hexp⟩ :=
      schedule_timer_call_unchanged
        { s with timers := s.timers.filter (fun t => t.handle ≠ handle),
                 expected_event_id := s.expected_event_id + 1 } now
    exact lt_of_lt_of_le (Nat.lt_succ_self _) hexp
  · intro s now hsusp
    rw [suspend_eq s now hsusp]
    rfl
  · intro s now tm hsusp hlast
    rw [schedule_timer_call_issue s now tm hsusp hlast]
    exact ⟨rfl, rfl⟩
  · intro s s' now hres hne
    unfold resume at hres
    cases hsusp : s.suspended_since with
    | none =>
      rw [hsusp] at hres
      cases hres
    | some t0 =>
      rw [hsusp] at hres
      dsimp only at hres
      obtain rfl := Option.some.inj hres
      cases hlast : s.timers.getLast? with
      | none =>
        exact absurd (List.getLast?_eq_none_iff.mp hlast) hne
      | some tm =>
        have hs1 : ({ s with
            suspension_offset := s.suspension_offset + (now - t0),
            suspended_since := none } : TimerState).timers.getLast? =
            some tm := hlast
        rw [schedule_timer_call_issue _ now tm rfl hs1]
        exact Nat.lt_succ_self _

theorem C3_generation_id_protocol_witness :
    w3.expected_event_id ≤
      (unschedule_callback w3 0 1).expected_event_id ∧
    initialState.expected_event_id ≤ w3.expected_event_id ∧
    ((∀ r ∈ initialState.scheduler_requests,
        r.id ≤ initialState.expected_event_id) ∧
      (initialState.scheduler_requests.map SchedulerRequest.id).Pairwise
        (fun a b => a < b)) ∧
    is_next_timer c2pre 2 = true ∧
    c2pre.expected_event_id <
      (unschedule_callback c2pre 0 2).expected_event_id ∧
    (suspend initialState 0).map TimerState.expected_event_id = some 1 := by
  have h := C3_generation_id_protocol
  refine ⟨h.1 w3 _ Step.unschedule,
    h.2.1 initialState w3 (Relation.ReflTransGen.tail
      Relation.ReflTransGen.refl (Step.schedule (show
        schedule_callback initialState 0 OneshotTimerCallback.xhrTimeout
          10 0 = some (1, w3) from rfl))),
    h.2.2.1 initialState Reachable.init, by decide, ?_, ?_⟩
  · exact h.2.2.2.1 c2pre 0 2 (by decide)
  · exact h.2.2.2.2.1 initialState 0 rfl

/-- C4: For every state and every notification id different from the
current expected generation id, fire with that id changes nothing
observable: the whole state — pending entries, expected id, suspension
state, logs — is returned unchanged and no callback is invoked. -/
theorem C4_stale_notification_noop (s : TimerState) (now id : Nat)
    (h : id ≠ s.expected_event_id) :
    fire_timer s now id = some s := by
  unfold fire_timer
  rw [if_pos (Ne.symm h)]

theorem C4_stale_notification_noop_witness :
    (5 : Nat) ≠ initialState.expected_event_id ∧
    fire_timer initialState 0 5 = some initialState :=
  ⟨by decide, C4_stale_notification_noop initialState 0 5 (by decide)⟩

/-- C5: Logical time equals wall-clock minus the cumulative suspension
offset while running, is frozen at (suspension timestamp minus offset)
while suspended, and resume adds (now minus suspended-since) to the offset;
suspend and resume leave the pending entries (hence their relative order)
untouched; a newly scheduled entry's deadline is the scheduling-time
logical time plus the requested duration, and fire only ever invokes
entries whose deadline is at most the fire-time logical time — so no entry
fires earlier than its requested duration of logical (suspension-excluded)
time. -/
theorem C5_logical_time (s : TimerState) (now : Nat) :
    (s.suspended_since = none →
      base_time s now = now - s.suspension_offset) ∧
    (∀ t0, s.suspended_since = some t0 →
      base_time s now = t0 - s.suspension_offset) ∧
    (∀ s', suspend s now = some s' →
      s'.timers = s.timers ∧ s'.suspension_offset = s.suspension_offset ∧
        s'.suspended_since = some now) ∧
    (∀ t0 s', s.suspended_since = some t0 → resume s now = some s' →
      s'.suspension_offset = s.suspension_offset + (now - t0) ∧
        s'.timers = s.timers ∧ s'.suspended_since = none) ∧
    (∀ cb d src hdl s', schedule_callback s now cb d src = some (hdl, s') →
      newTimer s now cb d src ∈ s'.timers ∧
        (newTimer s now cb d src).scheduled_for = base_time s now + d) ∧
    (∀ id s', fire_timer s now id = some s' →
      ∀ r ∈ s'.invoked, r ∈ s.invoked ∨
        r.scheduled_for ≤ base_time s now) := by
  refine ⟨?_, ?_, ?_, ?_, ?_, ?_⟩
  · intro h
    unfold base_time
    rw [h]
  · intro t0 h
    unfold base_time
    rw [h]
  · intro s' h
    unfold suspend invalidate_expected_event_id at h
    cases hsusp : s.suspended_since with
    | some t0 =>
      rw [hsusp] at h
      cases h
    | none =>
      rw [hsusp] at h
      dsimp only at h
      obtain rfl := Option.some.inj h
      exact ⟨rfl, rfl, rfl⟩
  · intro t0 s' hsusp h
    rw [resume_eq s now t0 hsusp] at h
    obtain rfl := Option.some.inj h
    obtain ⟨ht, _, hss, hso, _⟩ := schedule_timer_call_unchanged _ now
    exact ⟨hso, ht, hss⟩
  · intro cb d src hdl s' h
    unfold schedule_callback at h
    dsimp only at h
    split at h
    · cases h
    · rename_i i hidx
      split at h
      · obtain h2 := Option.some.inj h
        injection h2 with hh hs2
        rw [← hs2]
        constructor
        · rw [(schedule_timer_call_unchanged _ now).1]
          exact self_mem_insertAt _ _ _
        · rfl
      · obtain h2 := Option.some.inj h
        injection h2 with hh hs2
        rw [← hs2]
        exact ⟨self_mem_insertAt _ _ _, rfl⟩
  · intro id s' h r hr
    obtain ⟨tail, heq, hmem⟩ := fire_timer_invoked h
    rw [heq] at hr
    rcases List.mem_append.mp hr with h1 | h1
    · exact Or.inl h1
    · obtain ⟨t, ht, hmk, hdue⟩ := hmem r h1
      rw [← hmk]
      simp only [isDue, decide_eq_true_eq] at hdue
      exact Or.inr hdue

theorem C5_logical_time_witness :
    base_time initialState 7 = 7 - initialState.suspension_offset ∧
    base_time w1 9 = 3 - w1.suspension_offset ∧
    (suspend initialState 3 = some w1 ∧
      w1.timers = initialState.timers) ∧
    (resume w1 5 = some w2 ∧
      w2.suspension_offset = w1.suspension_offset + (5 - 3)) ∧
    (schedule_callback initialState 0 OneshotTimerCallback.xhrTimeout 10 0 =
        some (1, w3) ∧
      newTimer initialState 0 OneshotTimerCallback.xhrTimeout 10 0 ∈
        w3.timers) ∧
    (fire_timer c2pre 50 c2pre.expected_event_id =
        some (c2state.getD initialState) ∧
      (({ handle := 2, scheduled_for := 10, jsHandle := none } :
          InvokeRecord) ∈ c2pre.invoked ∨
        (10 : Nat) ≤ base_time c2pre 50)) := by
  refine ⟨(C5_logical_time initialState 7).1 rfl,
    (C5_logical_time w1 9).2.1 3 rfl,
    ⟨rfl, ((C5_logical_time initialState 3).2.2.1 w1 rfl).1⟩,
    ⟨rfl, ((C5_logical_time w1 5).2.2.2.1 3 w2 rfl rfl).1⟩,
    ⟨rfl, ((C5_logical_time initialState 0).2.2.2.2.1
      OneshotTimerCallback.xhrTimeout 10 0 1 w3 rfl).1⟩,
    ⟨rfl, ?_⟩⟩
  have h6 := (C5_logical_time c2pre 50).2.2.2.2.2 c2pre.expected_event_id
    (c2state.getD initialState) rfl
  have hm : ({ handle := 2, scheduled_for := 10, jsHandle := none } :
      InvokeRecord) ∈ (c2state.getD initialState).invoked := by decide
  exact h6 _ hm

/-- C6: A registration with requested timeout t (any i32, including
negative) made at nesting depth d never fails; the stored duration is
max(0, t); the delay passed to the one-shot queue is max(4, duration) when
d > 5 and the duration unchanged otherwise; and the created task's nesting
level is d + 1.  The created one-shot entry exhibits all of this: its
deadline is logical time + the clamped delay and its payload task records
duration max(0, t) and nesting level d + 1. -/
theorem C6_registration_clamp (s : TimerState) (now : Nat)
    (body : List TimerEffect) (timeout : Int) (isI : Bool)
    (src : TimerSource) (hI : Inv s) :
    ∃ s', set_timeout_or_interval s now body timeout isI src =
        some (s.js_next_handle, s') ∧
      newTimer s now (OneshotTimerCallback.jsTimer
          { handle := s.js_next_handle, source := src, callback := body,
            is_interval := isI, nesting_level := s.nesting_level + 1,
            duration := (max 0 timeout).toNat })
        (if 5 < s.nesting_level then max 4 (max 0 timeout).toNat
          else (max 0 timeout).toNat) src ∈ s'.timers := by
  obtain ⟨s', heq, _, _, _, _, _, _, _, _, hmem⟩ :=
    set_timeout_spec s now body timeout isI src hI
  have hclamp : clamp_duration s.nesting_level (max 0 timeout).toNat =
      if 5 < s.nesting_level then max 4 (max 0 timeout).toNat
      else (max 0 timeout).toNat := by
    unfold clamp_duration
    by_cases h5 : s.nesting_level > 5
    · rw [if_pos h5, if_pos h5]
    · rw [if_neg h5, if_neg h5]
      simp
  rw [hclamp] at hmem
  exact ⟨s', heq, hmem⟩

theorem C6_registration_clamp_witness :
    ∃ s', set_timeout_or_interval initialState 0 [] (-7) false 4 =
        some (initialState.js_next_handle, s') ∧
      newTimer initialState 0 (OneshotTimerCallback.jsTimer
          { handle := initialState.js_next_handle, source := 4,
            callback := [], is_interval := false,
            nesting_level := initialState.nesting_level + 1,
            duration := (max 0 (-7 : Int)).toNat })
        (if 5 < initialState.nesting_level
          then max 4 (max 0 (-7 : Int)).toNat
          else (max 0 (-7 : Int)).toNat) 4 ∈ s'.timers :=
  C6_registration_clamp initialState 0 [] (-7) false 4
    ⟨by unfold SortedT; decide, by decide, by decide, by decide, by decide⟩

/-! ### Interval scenario executions for C7 -/

/-- Register an interval timer (10ms, empty body) at wall-clock 0. -/
def c7a : Option TimerState :=
  (set_timeout_or_interval initialState 0 [] 10 true 7).map fun p => p.2

/-- First firing, at wall-clock 10. -/
def c7b : Option TimerState :=
  c7a.bind fun st => fire_timer st 10 st.expected_event_id

/-- Second firing, at wall-clock 20. -/
def c7c : Option TimerState :=
  c7b.bind fun st => fire_timer st 20 st.expected_event_id

/-- Register an interval timer whose callback cancels its own handle. -/
def c7d : Option TimerState :=
  (set_timeout_or_interval initialState 0 [TimerEffect.clearTimer 1]
    10 true 7).map fun p => p.2

/-- Fire the self-cancelling interval once. -/
def c7e : Option TimerState :=
  c7d.bind fun st => fire_timer st 10 st.expected_event_id

/-- C7: After an interval task's callback body returns, a fresh one-shot
entry (same callback body, duration and source, nesting level reset to 1,
deadline = current logical time + duration) is scheduled and the
application handle's mapping is updated to the new one-shot handle if and
only if the task is a repeating interval and the handle's mapping still
exists; concretely, two firings of an interval run the callback twice via
distinct fresh one-shot handles (1 then 2), and a callback that cancels its
own handle during execution is not re-armed, preventing the next firing. -/
theorem C7_interval_rearm (task : JsTimerTask) (s s1 : TimerState)
    (now : Nat) (hI : Inv s)
    (hbody : runEffects now { s with nesting_level := task.nesting_level }
      task.callback = some s1) :
    ((task.is_interval = true ∧
        containsKey s1.active_timers task.handle = true) →
      ∃ s', task.invoke s now = some s' ∧
        getAssoc s'.active_timers task.handle =
          some s1.next_timer_handle ∧
        ({ handle := s1.next_timer_handle, source := task.source,
           callback := OneshotTimerCallback.jsTimer
             { task with nesting_level := 1 },
           scheduled_for := base_time s1 now + task.duration } :
          OneshotTimer) ∈ s'.timers) ∧
    (¬(task.is_interval = true ∧
        containsKey s1.active_timers task.handle = true) →
      task.invoke s now = some { s1 with nesting_level := 0 }) ∧
    c7c.map (fun st => (st.invoked.map InvokeRecord.jsHandle,
      st.invoked.map InvokeRecord.handle)) =
      some ([some 1, some 1], [1, 2]) ∧
    c7e.map (fun st => (st.invoked.length, st.timers.length,
      containsKey st.active_timers 1)) = some (1, 0, false) := by
  have hI1 : Inv s1 :=
    (runEffects_spec task.callback
      { s with nesting_level := task.nesting_level } s1
      ⟨hI.sorted, hI.bounded, hI.handlesNe, hI.reqLe, hI.reqMono⟩
      hbody).1
  refine ⟨?_, ?_, rfl, rfl⟩
  · intro hc
    unfold JsTimerTask.invoke
    dsimp only
    rw [hbody]
    dsimp only
    have hc2 : task.is_interval = true ∧
        containsKey ({ s1 with nesting_level := 0 } :
          TimerState).active_timers task.handle = true := hc
    rw [if_pos hc2]
    obtain ⟨s', heq, _, _, _, _, _, _, _, hget, hmem⟩ :=
      initializeAndSchedule_spec { s1 with nesting_level := 0 } now task
        ⟨hI1.sorted, hI1.bounded, hI1.handlesNe, hI1.reqLe, hI1.reqMono⟩
    refine ⟨s', heq, hget, ?_⟩
    have hcd : clamp_duration ({ s1 with nesting_level := 0 } :
        TimerState).nesting_level task.duration = task.duration := by
      show clamp_duration 0 task.duration = task.duration
      unfold clamp_duration
      simp
    rw [hcd] at hmem
    exact hmem
  · intro hc
    unfold JsTimerTask.invoke
    dsimp only
    rw [hbody]
    dsimp only
    rw [if_neg hc]

/-- The interval task created by the c7a registration. -/
def c7task : JsTimerTask :=
  { handle := 1, source := 7, callback := [], is_interval := true,
    nesting_level := 1, duration := 10 }

/-- The state right after the c7a registration. -/
def c7aState : TimerState := c7a.getD initialState

theorem C7_interval_rearm_witness :
    runEffects 10 { c7aState with nesting_level := c7task.nesting_level }
      c7task.callback =
      some { c7aState with nesting_level := c7task.nesting_level } ∧
    ∃ s', c7task.invoke c7aState 10 = some s' ∧
      getAssoc s'.active_timers 1 =
        some ({ c7aState with nesting_level := c7task.nesting_level } :
          TimerState).next_timer_handle := by
  have hI : Inv c7aState :=
    ⟨by unfold SortedT; decide, by decide, by decide, by decide, by decide⟩
  have hb : runEffects 10
      { c7aState with nesting_level := c7task.nesting_level }
      c7task.callback =
      some { c7aState with nesting_level := c7task.nesting_level } := rfl
  obtain ⟨s', heq, hget, _⟩ :=
    (C7_interval_rearm c7task c7aState _ 10 hI hb).1 (by decide)
  exact ⟨hb, s', heq, hget⟩

/-- The timers vector of unschedule_callback, unconditionally. -/
theorem unschedule_timers (s : TimerState) (now handle : Nat) :
    (unschedule_callback s now handle).timers =
      s.timers.filter (fun t => t.handle ≠ handle) := by
  unfold unschedule_callback
  dsimp only
  split
  · exact (schedule_timer_call_unchanged _ now).1
  · rfl

/-- C8: Once cancel(handle) has removed an entry, delivering any scheduler
notification (any id, any time) to the resulting state never invokes the
canceled entry's callback: every invocation record appended by the fire
carries a different one-shot handle. -/
theorem C8_canceled_never_invoked (s : TimerState)
    (now now2 handle id : Nat) (s'' : TimerState)
    (hf : fire_timer (unschedule_callback s now handle) now2 id =
      some s'') :
    ∃ tail, s''.invoked = s.invoked ++ tail ∧
      ∀ r ∈ tail, r.handle ≠ handle := by
  obtain ⟨tail, heq, hmem⟩ := fire_timer_invoked hf
  rw [unschedule_invoked s now handle] at heq
  refine ⟨tail, heq, ?_⟩
  intro r hr
  obtain ⟨t, ht, hmk, _⟩ := hmem r hr
  rw [unschedule_timers s now handle] at ht
  have ht2 := (List.mem_filter.mp ht).2
  simp only [ne_eq, decide_not, Bool.not_eq_eq_eq_not, Bool.not_true,
    decide_eq_false_iff_not] at ht2
  rw [← hmk]
  exact ht2

/-- c2pre with entry B (handle 2) canceled. -/
def c8s : TimerState := unschedule_callback c2pre 0 2

/-- Firing the post-cancellation state at wall-clock 50. -/
def c8f : Option TimerState := fire_timer c8s 50 c8s.expected_event_id

theorem C8_canceled_never_invoked_witness :
    ({ handle := 2, scheduled_for := 10, jsHandle := none } :
      InvokeRecord) ∉ (c8f.getD initialState).invoked := by
  obtain ⟨tail, heq, hne⟩ := C8_canceled_never_invoked c2pre 0 50 2
    c8s.expected_event_id (c8f.getD initialState) rfl
  intro hmem
  rw [heq] at hmem
  have hpre : c2pre.invoked = [] := rfl
  rw [hpre] at hmem
  rw [List.nil_append] at hmem
  exact hne _ hmem rfl

/-- C9: Canceling a handle that is not present is a no-op, not an error, in
both layers: unschedule_callback on an absent one-shot handle returns the
state unchanged, and clear_timeout_or_interval on an absent application
handle returns the state unchanged, so double cancellation is idempotent. -/
theorem C9_cancel_absent_noop (s : TimerState) (now handle hjs : Nat)
    (h1 : ∀ t ∈ s.timers, t.handle ≠ handle)
    (h2 : getAssoc s.active_timers hjs = none) :
    unschedule_callback s now handle = s ∧
    clear_timeout_or_interval s now hjs = s := by
  constructor
  · unfold unschedule_callback
    dsimp only
    have hfilter : s.timers.filter (fun t => t.handle ≠ handle) =
        s.timers := by
      rw [List.filter_eq_self]
      intro a ha
      simpa using h1 a ha
    have hn : ¬(is_next_timer s handle = true) := by
      unfold is_next_timer
      cases hlast : s.timers.getLast? with
      | none => simp
      | some m =>
        have hm := h1 m (List.mem_of_mem_getLast? hlast)
        simp [hm]
    rw [if_neg hn, hfilter]
  · unfold clear_timeout_or_interval
    rw [h2]

theorem C9_cancel_absent_noop_witness :
    unschedule_callback initialState 0 5 = initialState ∧
    clear_timeout_or_interval initialState 0 7 = initialState :=
  C9_cancel_absent_noop initialState 0 5 7 (by decide) rfl

/-- C10: In every reachable state each pending entry's handle is strictly
smaller than the next-handle counter and all pending handles are pairwise
distinct, so the binary search performed by schedule_callback compares the
new entry as unequal to every stored entry and returns Err (here: the
error branch), and schedule_callback never hits the .err().unwrap() panic:
it is total on reachable states. -/
theorem C10_schedule_callback_total (s : TimerState) (hr : Reachable s) :
    (∀ t ∈ s.timers, t.handle < s.next_timer_handle) ∧
    s.timers.Pairwise (fun a b => a.handle ≠ b.handle) ∧
    ∀ now cb d src,
      (∃ i, binarySearchGo s.timers (newTimer s now cb d src)
        s.timers.length 0 s.timers.length = Except.error i) ∧
      (schedule_callback s now cb d src).isSome = true := by
  have hI := reachable_inv hr
  refine ⟨hI.bounded, hI.handlesNe, ?_⟩
  intro now cb d src
  have hne : ∀ x ∈ s.timers,
      OneshotTimer.cmp x (newTimer s now cb d src) ≠ Ordering.eq := by
    intro x hx hc
    have h2 : x.handle = s.next_timer_handle := (cmp_eq_eq.mp hc).2
    have h3 := hI.bounded x hx
    omega
  constructor
  · obtain ⟨i, heq, _⟩ := bsGo_spec s.timers (newTimer s now cb d src)
      hI.sorted hne s.timers.length 0 s.timers.length (by omega) (by omega)
      le_rfl (by intro j hj hij; omega) (by intro j hj hij; omega)
    exact ⟨i, heq⟩
  · obtain ⟨s', heq, _⟩ := schedule_callback_spec s now cb d src hI
    rw [heq]
    rfl

theorem C10_schedule_callback_total_witness :
    (schedule_callback initialState 0 OneshotTimerCallback.xhrTimeout
      10 0).isSome = true ∧
    (insertionIndex initialState.timers
      (newTimer initialState 0 OneshotTimerCallback.xhrTimeout
        10 0)).isSome = true := by
  have h := (C10_schedule_callback_total initialState Reachable.init).2.2
    0 OneshotTimerCallback.xhrTimeout 10 0
  obtain ⟨⟨i, heq⟩, hsome⟩ := h
  refine ⟨hsome, ?_⟩
  unfold insertionIndex
  rw [heq]
  rfl

end ServoTimers
